import Mathlib

/-!
Issue tracker: the request handlers of `routes/api.js`.

A shallow embedding of the four handlers mounted on `/api/issues/:project`
(GET, POST, PUT, DELETE) and of the helpers they call (`generateId`,
`getIssuesArray`, `normalizeBoolean`), followed by theorems about them.

The in-memory `Map` from project name to array of issues is an explicit state
that every handler takes and returns.  The clock (`new Date()`) and the
random source (`Math.random()`) are explicit inputs of the handlers that read
them.
-/

namespace IssueTracker

/-! ## JavaScript values -/

/-- A `Date` object, as `new Date()` returns it: the time value in
milliseconds, and the text that `String(...)` gives for it (which the host
derives from the time value and its time zone). -/
structure JSDate where
  time : Nat
  text : String
  deriving DecidableEq, Repr

/-- The JavaScript values that reach the handlers: what a parsed request body
or query string can hold, the `Date` objects the handlers create, and the
properties every object inherits.  A number, which is a double, is kept as
the text that `String(...)` gives for it (`1.5`, `1e+21`; both zeros give `0`),
one text per number.  An object other than a `Date` (a nested object, an
array, a function) is kept as the text that `String(...)` gives for it, or as
`none` when `String(...)` throws for it, as it does for a parsed object whose
own key `toString` holds the number 1; that is all the handlers ever ask of
it. -/
inductive JSVal where
  | undefined
  | null
  | bool (b : Bool)
  | num (text : String)
  | str (s : String)
  | date (d : JSDate)
  | object (repr : Option String)
  deriving DecidableEq, Repr

/-- Truthiness, as tested by `!x`: `undefined`, `null`, `false`, `0` and `''`
are falsy, every other value (every object included) is truthy. -/
def truthy : JSVal → Bool
  | .undefined => false
  | .null => false
  | .bool b => b
  | .num text => text != "0"
  | .str s => s != ""
  | .date _ => true
  | .object _ => true

/-- The conversion `String(x)`; `none` when it throws a `TypeError`, which it
does for an object that has no callable `toString` or `valueOf` giving a
primitive. -/
def toStr : JSVal → Option String
  | .undefined => some "undefined"
  | .null => some "null"
  | .bool true => some "true"
  | .bool false => some "false"
  | .num text => some text
  | .str s => some s
  | .date d => some d.text
  | .object repr => repr

/-- Strict equality `s === v` of a string with any value: `v` must be a
string with the same characters. -/
def strictEqStr (s : String) : JSVal → Bool
  | .str s' => s == s'
  | _ => false

/-- The values the spec calls absent or falsy: an absent field (`undefined`),
`null`, `false`, zero and the empty string. -/
def AbsentOrFalsy (v : JSVal) : Prop :=
  v = .undefined ∨ v = .null ∨ v = .bool false ∨ v = .num "0" ∨ v = .str ""

/-- A plain object built from a query string, as its entries in key order. -/
abbrev JSObject := List (String × JSVal)

/-- The call `Object.keys(o)`. -/
def objKeys (o : JSObject) : List String :=
  o.map Prod.fst

/-- The call `Object.prototype.hasOwnProperty.call(o, key)`. -/
def hasOwnProperty (o : JSObject) (key : String) : Bool :=
  (o.lookup key).isSome

/-- The read `o[key]` for an object read through its own entries. -/
def objGet (o : JSObject) (key : String) : JSVal :=
  (o.lookup key).getD .undefined

/-- Writing a value under a key in a list of entries: the entry is overwritten
where it stands, or added last when the key is new.  This is what both a
property assignment and `Map.prototype.set` do. -/
def setEntry {β : Type} : List (String × β) → String → β → List (String × β)
  | [], key, v => [(key, v)]
  | (k, w) :: rest, key, v =>
    if k = key then (k, v) :: rest else (k, w) :: setEntry rest key v

/-- The assignment `o[key] = v`. -/
def objSet (o : JSObject) (key : String) (v : JSVal) : JSObject :=
  setEntry o key v

/-- The criteria of a query string whose values are all plain strings. -/
def stringCriteria (c : List (String × String)) : JSObject :=
  c.map fun e => (e.1, JSVal.str e.2)

/-! ## The data model -/

/-- An issue object as the POST handler builds it and the PUT handler rebuilds
it.  The five text fields and `open` hold whatever value the request carried;
`created_on` and `updated_on` are always `Date` objects and `_id` is always
the string made by `generateId`, since no handler writes anything else there.
The field `open` is spelled `open_` here. -/
structure Issue where
  issue_title : JSVal
  issue_text : JSVal
  created_by : JSVal
  assigned_to : JSVal
  status_text : JSVal
  created_on : JSDate
  updated_on : JSDate
  open_ : JSVal
  _id : String
  deriving DecidableEq, Repr

/-- The properties that every issue inherits from `Object.prototype`, each
with the value read through the issue. -/
def objectPrototype : JSObject :=
  [("constructor", .object (some "function Object() \x7b [native code] \x7d")),
   ("__defineGetter__", .object (some "function __defineGetter__() \x7b [native code] \x7d")),
   ("__defineSetter__", .object (some "function __defineSetter__() \x7b [native code] \x7d")),
   ("hasOwnProperty", .object (some "function hasOwnProperty() \x7b [native code] \x7d")),
   ("__lookupGetter__", .object (some "function __lookupGetter__() \x7b [native code] \x7d")),
   ("__lookupSetter__", .object (some "function __lookupSetter__() \x7b [native code] \x7d")),
   ("isPrototypeOf", .object (some "function isPrototypeOf() \x7b [native code] \x7d")),
   ("propertyIsEnumerable", .object (some "function propertyIsEnumerable() \x7b [native code] \x7d")),
   ("toString", .object (some "function toString() \x7b [native code] \x7d")),
   ("valueOf", .object (some "function valueOf() \x7b [native code] \x7d")),
   ("__proto__", .object (some "[object Object]")),
   ("toLocaleString", .object (some "function toLocaleString() \x7b [native code] \x7d"))]

/-- The own keys of an issue. -/
def issueKeys : List String :=
  ["issue_title", "issue_text", "created_by", "assigned_to", "status_text",
   "created_on", "updated_on", "open", "_id"]

/-- The test `key in issue`: an own key, or a key found on the prototype. -/
def hasProperty (key : String) (_issue : Issue) : Bool :=
  issueKeys.contains key || hasOwnProperty objectPrototype key

/-- The read `issue[key]`. -/
def getProperty (issue : Issue) (key : String) : JSVal :=
  if key = "issue_title" then issue.issue_title
  else if key = "issue_text" then issue.issue_text
  else if key = "created_by" then issue.created_by
  else if key = "assigned_to" then issue.assigned_to
  else if key = "status_text" then issue.status_text
  else if key = "created_on" then .date issue.created_on
  else if key = "updated_on" then .date issue.updated_on
  else if key = "open" then issue.open_
  else if key = "_id" then .str issue._id
  else objGet objectPrototype key

/-- The part of the request body that the handlers destructure: each name
holds the value sent under it, or `undefined` when the body has no such key
(or is not an object at all). -/
structure Body where
  _id : JSVal := .undefined
  issue_title : JSVal := .undefined
  issue_text : JSVal := .undefined
  created_by : JSVal := .undefined
  assigned_to : JSVal := .undefined
  status_text : JSVal := .undefined
  open_ : JSVal := .undefined
  deriving DecidableEq, Repr

/-- The store `projectToIssues`: a `Map` from project name to the array of its
issues, as its entries in insertion order. -/
abbrev Table := List (String × List Issue)

/-- The call `projectToIssues.has(project)`. -/
def mapHas (t : Table) (project : String) : Bool :=
  (t.lookup project).isSome

/-- The call `projectToIssues.get(project)`; `none` stands for `undefined`. -/
def mapGet (t : Table) (project : String) : Option (List Issue) :=
  t.lookup project

/-- The call `projectToIssues.set(project, issues)`, and also the effect on the store
of changing in place the array held under `project`. -/
def mapSet (t : Table) (project : String) (issues : List Issue) : Table :=
  setEntry t project issues

/-- The issue sequence of a project as a client can observe it: the array in
the store, or the empty sequence when the store has no entry yet. -/
def issuesOf (t : Table) (project : String) : List Issue :=
  (mapGet t project).getD []

/-- What a handler passes to `res.json`. -/
inductive Response where
  /-- An object with the single key `error`. -/
  | error (msg : String)
  /-- An object with the keys `error` and `_id`. -/
  | errorWithId (msg : String) (_id : JSVal)
  /-- An object with the keys `result` and `_id`. -/
  | resultWithId (msg : String) (_id : JSVal)
  /-- One issue object. -/
  | issue (i : Issue)
  /-- An array of issue objects. -/
  | issues (l : List Issue)
  /-- No body at all: the handler throws before it reaches `res.json`. -/
  | throws
  deriving DecidableEq, Repr

/-- No updatable field is supplied: the body has none of the six keys
`issue_title`, `issue_text`, `created_by`, `assigned_to`, `status_text`,
`open`. -/
def NoFieldSupplied (body : Body) : Prop :=
  body.issue_title = .undefined ∧ body.issue_text = .undefined ∧
  body.created_by = .undefined ∧ body.assigned_to = .undefined ∧
  body.status_text = .undefined ∧ body.open_ = .undefined

/-- Some record of the sequence carries the identifier `_id`. -/
def HasId (issues : List Issue) (_id : JSVal) : Prop :=
  ∃ r ∈ issues, JSVal.str r._id = _id

/-- The number of records of a sequence that carry the identifier `_id`. -/
def idCount (issues : List Issue) (_id : JSVal) : Nat :=
  issues.countP fun r => strictEqStr r._id _id

instance (v : JSVal) : Decidable (AbsentOrFalsy v) := by
  unfold AbsentOrFalsy
  infer_instance

instance (body : Body) : Decidable (NoFieldSupplied body) := by
  unfold NoFieldSupplied
  infer_instance

instance (issues : List Issue) (_id : JSVal) : Decidable (HasId issues _id) := by
  unfold HasId
  infer_instance

/-! ## Helpers of the module -/

/-- The call `n.toString(16)` for a non-negative integer `n`. -/
def toString16 (n : Nat) : String :=
  String.mk (Nat.toDigits 16 n)

/-- The function `generateId`.  `draws i` is the integer `Math.floor(Math.random() * 16)` of
the `i`-th of the 24 calls; `Math.random()` returns a number in `[0, 1)`, so
it is one of 0, ..., 15.  Each is written in base 16 and the 24 pieces are
joined in order. -/
def generateId (draws : Fin 24 → Fin 16) : String :=
  String.join ((List.finRange 24).map fun i => toString16 (draws i).val)

/-- The function `getIssuesArray`: an empty array is stored first when the project has no
entry; the array now stored is returned together with the store. -/
def getIssuesArray (t : Table) (project : String) : Table × List Issue :=
  let t' := if !mapHas t project then mapSet t project [] else t
  (t', (mapGet t' project).getD [])

/-- The function `normalizeBoolean`. -/
def normalizeBoolean : JSVal → JSVal
  | .bool b => .bool b
  | .str s =>
    if s = "true" then .bool true else if s = "false" then .bool false else .str s
  | v => v

/-! ## The handlers -/

/-- The callback of `every` for one key: `false` when the issue lacks the key,
else the comparison of the two string forms, the issue's value converted
first; `none` when one of the two conversions throws. -/
def keyMatches (issue : Issue) (query : JSObject) (key : String) : Option Bool :=
  if !hasProperty key issue then some false
  else
    match toStr (getProperty issue key) with
    | none => none
    | some a =>
      match toStr (objGet query key) with
      | none => none
      | some b => some (a == b)

/-- The call `keys.every(callback)` for one issue: the keys are tried in order
and the first `false` ends the loop; `none` when a callback throws. -/
def everyKey (issue : Issue) (query : JSObject) : List String → Option Bool
  | [] => some true
  | key :: rest =>
    match keyMatches issue query key with
    | none => none
    | some false => some false
    | some true => everyKey issue query rest

/-- The call `issues.filter(callback)`: the issues are tried in order; `none`
when a callback throws. -/
def filterIssues (query : JSObject) : List Issue → Option (List Issue)
  | [] => some []
  | issue :: rest =>
    match everyKey issue query (objKeys query) with
    | none => none
    | some keep =>
      match filterIssues query rest with
      | none => none
      | some kept => some (if keep then issue :: kept else kept)

/-- What the GET handler answers with the outcome of its filter: the array,
or nothing when the filter threw. -/
def answerOf : Option (List Issue) → Response
  | none => .throws
  | some filtered => .issues filtered

/-- The GET handler: the issues of the project that agree with every entry of
the query. -/
def getHandler (t : Table) (project : String) (reqQuery : JSObject) : Table × Response :=
  let (t', issues) := getIssuesArray t project
  let query : JSObject :=
    if hasOwnProperty reqQuery "open" then
      objSet reqQuery "open" (normalizeBoolean (objGet reqQuery "open"))
    else reqQuery
  (t', answerOf (filterIssues query issues))

/-- The POST handler.  `now` is the reading of `new Date()` and `draws` feeds
`generateId`. -/
def postHandler (t : Table) (project : String) (body : Body) (now : JSDate)
    (draws : Fin 24 → Fin 16) : Table × Response :=
  let assigned_to := if body.assigned_to = .undefined then .str "" else body.assigned_to
  let status_text := if body.status_text = .undefined then .str "" else body.status_text
  if !truthy body.issue_title || !truthy body.issue_text || !truthy body.created_by then
    (t, .error "required field(s) missing")
  else
    let newIssue : Issue :=
      { issue_title := body.issue_title
        issue_text := body.issue_text
        created_by := body.created_by
        assigned_to := assigned_to
        status_text := status_text
        created_on := now
        updated_on := now
        open_ := .bool true
        _id := generateId draws }
    let (t', issues) := getIssuesArray t project
    (mapSet t' project (issues ++ [newIssue]), .issue newIssue)

/-- The object `updateFields` of the PUT handler: for each of its six possible
keys, the value stored under it, or `none` when the key was not set. -/
structure UpdateFields where
  issue_title : Option JSVal := none
  issue_text : Option JSVal := none
  created_by : Option JSVal := none
  assigned_to : Option JSVal := none
  status_text : Option JSVal := none
  open_ : Option JSVal := none
  deriving DecidableEq, Repr

/-- The six conditional assignments that fill `updateFields` from the body. -/
def buildUpdateFields (body : Body) : UpdateFields :=
  { issue_title := if body.issue_title ≠ .undefined then some body.issue_title else none
    issue_text := if body.issue_text ≠ .undefined then some body.issue_text else none
    created_by := if body.created_by ≠ .undefined then some body.created_by else none
    assigned_to := if body.assigned_to ≠ .undefined then some body.assigned_to else none
    status_text := if body.status_text ≠ .undefined then some body.status_text else none
    open_ := if body.open_ ≠ .undefined then some (normalizeBoolean body.open_) else none }

/-- The number `Object.keys(updateFields).length`. -/
def updateFieldsCount (u : UpdateFields) : Nat :=
  [u.issue_title, u.issue_text, u.created_by, u.assigned_to, u.status_text, u.open_].countP
    Option.isSome

/-- The object literal that spreads `issue`, then `updateFields`, then sets
`updated_on` to the clock reading. -/
def mergeIssue (issue : Issue) (u : UpdateFields) (now : JSDate) : Issue :=
  { issue_title := u.issue_title.getD issue.issue_title
    issue_text := u.issue_text.getD issue.issue_text
    created_by := u.created_by.getD issue.created_by
    assigned_to := u.assigned_to.getD issue.assigned_to
    status_text := u.status_text.getD issue.status_text
    created_on := issue.created_on
    updated_on := now
    open_ := u.open_.getD issue.open_
    _id := issue._id }

/-- The call `issues.findIndex((i) => i._id === _id)`; `none` stands for `-1`. -/
def findIndex (issues : List Issue) (_id : JSVal) : Option Nat :=
  issues.findIdx? fun i => strictEqStr i._id _id

/-- The PUT handler.  `now` is the reading of `new Date()`. -/
def putHandler (t : Table) (project : String) (body : Body) (now : JSDate) :
    Table × Response :=
  if !truthy body._id then
    (t, .error "missing _id")
  else
    let updateFields := buildUpdateFields body
    if updateFieldsCount updateFields = 0 then
      (t, .errorWithId "no update field(s) sent" body._id)
    else
      let (t', issues) := getIssuesArray t project
      match findIndex issues body._id with
      | none => (t', .errorWithId "could not update" body._id)
      | some index =>
        (mapSet t' project (issues.modify (fun old => mergeIssue old updateFields now) index),
          .resultWithId "successfully updated" body._id)

/-- The DELETE handler. -/
def deleteHandler (t : Table) (project : String) (body : Body) : Table × Response :=
  if !truthy body._id then
    (t, .error "missing _id")
  else
    let (t', issues) := getIssuesArray t project
    match findIndex issues body._id with
    | none => (t', .errorWithId "could not delete" body._id)
    | some index =>
      (mapSet t' project (issues.eraseIdx index), .resultWithId "successfully deleted" body._id)

/-! ## Sequences of requests -/

/-- One request to the route, with the clock reading and random draws that the
handler consumes. -/
inductive Op where
  | list (project : String) (query : JSObject)
  | create (project : String) (body : Body) (now : JSDate) (draws : Fin 24 → Fin 16)
  | update (project : String) (body : Body) (now : JSDate)
  | delete (project : String) (body : Body)

/-- Dispatch of one request to its handler. -/
def step (t : Table) : Op → Table × Response
  | .list project query => getHandler t project query
  | .create project body now draws => postHandler t project body now draws
  | .update project body now => putHandler t project body now
  | .delete project body => deleteHandler t project body

/-- The store after a sequence of requests, served one at a time. -/
def run (t : Table) (ops : List Op) : Table :=
  ops.foldl (fun t op => (step t op).1) t

/-- The stores that the server can be in: those obtained from the empty `Map`
by some sequence of requests. -/
def Reachable (t : Table) : Prop :=
  ∃ ops : List Op, run [] ops = t

/-! ## Sample data -/

/-- A stored issue, open, as Create leaves it. -/
def sampleIssue1 : Issue :=
  ⟨.str "A", .str "B", .str "C", .str "", .str "", ⟨1, "d1"⟩, ⟨1, "d1"⟩, .bool true,
    "111111111111111111111111"⟩

/-- A second stored issue, closed by an earlier update. -/
def sampleIssue2 : Issue :=
  ⟨.str "D", .str "E", .str "F", .str "dev", .str "in QA", ⟨2, "d2"⟩, ⟨3, "d3"⟩, .bool false,
    "222222222222222222222222"⟩

/-- A store with one project that holds the two sample issues. -/
def sampleTable : Table :=
  [("apitest", [sampleIssue1, sampleIssue2])]

/-- A body that passes the checks of Create. -/
def sampleCreateBody : Body :=
  { issue_title := .str "T", issue_text := .str "X", created_by := .str "U" }

/-- Two Create requests for which `generateId` draws the same 24 digits. -/
def collidingCreates : List Op :=
  [.create "p" sampleCreateBody ⟨1, "d1"⟩ (fun _ => 0),
   .create "p" sampleCreateBody ⟨2, "d2"⟩ (fun _ => 0)]

/-- A Create followed by an Update whose `open` is the array `["true"]`, an
object, kept here by its string form `true`. -/
def arrayOpenOps : List Op :=
  [.create "p" sampleCreateBody ⟨1, "d1"⟩ (fun _ => 0),
   .update "p" { _id := .str "000000000000000000000000", open_ := .object (some "true") } ⟨2, "d2"⟩]

/-- The sixteen lowercase hexadecimal digits. -/
def hexDigits : List Char :=
  "0123456789abcdef".data

/-- The call `Math.floor(x * 16)` for a reading `x` of `Math.random()`, which is
a number in `[0, 1)`. -/
def floor16 (x : ℚ) : Nat :=
  (⌊x * 16⌋).toNat

/-- A Create whose identifier is drawn as 24 zeros. -/
def priorCreate : Op :=
  .create "p" { issue_title := .str "A", issue_text := .str "B", created_by := .str "C" }
    ⟨1, "d1"⟩ (fun _ => 0)

/-- A later Create in the same project that draws the same 24 zeros. -/
def secondCreate : Op :=
  .create "p" sampleCreateBody ⟨2, "d2"⟩ (fun _ => 0)

/-- The Update that closes the issue with the identifier of 24 zeros. -/
def closeUpdate : Op :=
  .update "p" { _id := .str "000000000000000000000000", open_ := .str "false" } ⟨3, "d3"⟩

/-- A Create followed by an Update that sends the empty string as the new
`issue_title` of the created record. -/
def blankTitleOps : List Op :=
  [.create "p" sampleCreateBody ⟨1, "d1"⟩ (fun _ => 0),
   .update "p" { _id := .str "000000000000000000000000", issue_title := .str "" } ⟨2, "d2"⟩]

/-- The records of every project carry pairwise distinct identifiers. -/
def IdsDistinct (t : Table) : Prop :=
  ∀ project, ((issuesOf t project).map fun r => r._id).Nodup

/-- The request, served in store `t`, does not repeat an identifier: it is not
a Create, or the Create is refused, or the identifier it draws is carried by
no record then stored in its project. -/
def opFresh (t : Table) : Op → Bool
  | .create project body now draws =>
    decide ((postHandler t project body now draws).2 = .error "required field(s) missing" ∨
      ¬ HasId (issuesOf t project) (.str (generateId draws)))
  | _ => true

/-- Every request of the sequence, served in turn from store `t`, satisfies
`opFresh` in the store it meets. -/
def freshCreates : Table → List Op → Bool
  | _, [] => true
  | t, op :: rest => opFresh t op && freshCreates (step t op).1 rest

/-- The clock readings of a sequence of requests, in order: one `new Date()`
per Create and per Update.  A request that is refused before it reads the
clock is listed with the reading it would have taken. -/
def clockReadings : List Op → List Nat
  | [] => []
  | .create _ _ now _ :: rest => now.time :: clockReadings rest
  | .update _ _ now :: rest => now.time :: clockReadings rest
  | .list _ _ :: rest => clockReadings rest
  | .delete _ _ :: rest => clockReadings rest

/-- The project a request is addressed to. -/
def opProject : Op → String
  | .list project _ => project
  | .create project _ _ _ => project
  | .update project _ _ => project
  | .delete project _ => project

/-- The filter of the GET handler applied to the criteria as they stand,
without the coercion of `open`: an issue passes when, for every key of the
criteria, it has the key and the two string forms agree; `none` when the
filter throws. -/
def filterByCriteria (issues : List Issue) (query : JSObject) : Option (List Issue) :=
  filterIssues query issues

/-! ## The words of the claims -/

/-- The value has a string form: `String(...)` does not throw for it. -/
def hasStringForm (v : JSVal) : Bool :=
  (toStr v).isSome

/-- Every value that a request wrote into the issue has a string form. -/
def issuePrintable (r : Issue) : Bool :=
  hasStringForm r.issue_title && hasStringForm r.issue_text && hasStringForm r.created_by &&
    hasStringForm r.assigned_to && hasStringForm r.status_text && hasStringForm r.open_

/-- The field that `key` names in the data model of the spec, with the value
the record holds for it; `none` when the data model has no field of that
name.  The identifier is the field `_id`. -/
def fieldValue (r : Issue) (key : String) : Option JSVal :=
  if key = "_id" then some (.str r._id)
  else if key = "issue_title" then some r.issue_title
  else if key = "issue_text" then some r.issue_text
  else if key = "created_by" then some r.created_by
  else if key = "assigned_to" then some r.assigned_to
  else if key = "status_text" then some r.status_text
  else if key = "open" then some r.open_
  else if key = "created_on" then some (.date r.created_on)
  else if key = "updated_on" then some (.date r.updated_on)
  else none

/-- The property that `key` names on a record: a field of the data model, or
else a property that every object inherits from `Object.prototype`; `none`
when the record has neither. -/
def propertyOf (r : Issue) (key : String) : Option JSVal :=
  match fieldValue r key with
  | some v => some v
  | none => objectPrototype.lookup key

/-- The request does not blank a required field: it is not an Update, or each
of `issue_title`, `issue_text` and `created_by` is absent from its body or
truthy there. -/
def opKeepsRequired : Op → Bool
  | .update _ body _ =>
    (decide (body.issue_title = .undefined) || truthy body.issue_title) &&
    (decide (body.issue_text = .undefined) || truthy body.issue_text) &&
    (decide (body.created_by = .undefined) || truthy body.created_by)
  | _ => true

/-- A Create followed by an Update whose `open` is an object with the own key
`toString` holding the number 1, for which `String(...)` throws. -/
def unprintableOpenOps : List Op :=
  [.create "p" sampleCreateBody ⟨1, "d1"⟩ (fun _ => 0),
   .update "p" { _id := .str "000000000000000000000000", open_ := .object none } ⟨2, "d2"⟩]

/-- The first record of project `p` after the requests of `renameOps`, which
are defined next. -/
def renamedIssue : Issue :=
  ⟨.str "New", .str "X", .str "U", .str "", .str "", ⟨1, "d1"⟩, ⟨2, "d2"⟩, .bool false,
    "000000000000000000000000"⟩

/-- A Create, an Update that renames the created issue and closes it, and a
second Create. -/
def renameOps : List Op :=
  [.create "p" sampleCreateBody ⟨1, "d1"⟩ (fun _ => 0),
   .update "p"
     { _id := .str "000000000000000000000000", issue_title := .str "New",
       open_ := .str "false" } ⟨2, "d2"⟩,
   .create "p" sampleCreateBody ⟨3, "d3"⟩ (fun _ => 1)]

/-! # Theorems -/

/-! ## Lemmas on the store -/

theorem lookup_cons_ite {β : Type} (q k : String) (l : β) (rest : List (String × β)) :
    List.lookup q ((k, l) :: rest) = if q = k then some l else List.lookup q rest := by
  rw [List.lookup_cons]
  by_cases h : q = k
  · subst h
    simp
  · have hb : (q == k) = false := by simpa using h
    simp [hb, h]

theorem lookup_setEntry {β : Type} (t : List (String × β)) (p q : String) (v : β) :
    List.lookup q (setEntry t p v) = if q = p then some v else List.lookup q t := by
  induction t with
  | nil =>
    simp only [setEntry, lookup_cons_ite, List.lookup_nil]
  | cons e rest ih =>
    obtain ⟨k, l⟩ := e
    by_cases hk : k = p
    · subst hk
      simp only [setEntry, if_true, lookup_cons_ite]
      by_cases h : q = k <;> simp [h]
    · simp only [setEntry, hk, if_false, lookup_cons_ite, ih]
      by_cases hq : q = k
      · have : ¬ q = p := fun e => hk (hq ▸ e)
        simp [hq, hk]
      · simp [hq]

theorem keys_setEntry {β : Type} (t : List (String × β)) (p : String) (v : β)
    (h : (List.lookup p t).isSome = true) :
    (setEntry t p v).map Prod.fst = t.map Prod.fst := by
  induction t with
  | nil => simp at h
  | cons e rest ih =>
    obtain ⟨k, l⟩ := e
    by_cases hk : k = p
    · simp [setEntry, hk]
    · have hpk : ¬ p = k := fun e => hk e.symm
      rw [lookup_cons_ite, if_neg hpk] at h
      simp [setEntry, hk, ih h]

theorem mapGet_mapSet (t : Table) (p q : String) (v : List Issue) :
    mapGet (mapSet t p v) q = if q = p then some v else mapGet t q :=
  lookup_setEntry t p q v

theorem issuesOf_mapSet (t : Table) (p q : String) (v : List Issue) :
    issuesOf (mapSet t p v) q = if q = p then v else issuesOf t q := by
  unfold issuesOf
  rw [mapGet_mapSet]
  by_cases h : q = p <;> simp [h]

theorem getIssuesArray_snd (t : Table) (p : String) :
    (getIssuesArray t p).2 = issuesOf t p := by
  unfold getIssuesArray issuesOf
  by_cases h : mapHas t p = true
  · simp [h]
  · have hn : mapGet t p = none := by
      unfold mapHas at h
      unfold mapGet
      cases hl : List.lookup p t with
      | none => rfl
      | some v => simp [hl] at h
    simp [h, mapGet_mapSet, hn]

theorem issuesOf_getIssuesArray (t : Table) (p q : String) :
    issuesOf (getIssuesArray t p).1 q = issuesOf t q := by
  unfold getIssuesArray
  by_cases h : mapHas t p = true
  · simp [h]
  · have hn : mapGet t p = none := by
      unfold mapHas at h
      unfold mapGet
      cases hl : List.lookup p t with
      | none => rfl
      | some v => simp [hl] at h
    simp only [h, Bool.not_false, if_true, Bool.false_eq_true, not_false_eq_true]
    rw [issuesOf_mapSet]
    by_cases hq : q = p
    · subst hq
      simp [issuesOf, hn]
    · simp [hq]

theorem truthy_eq_false_iff (v : JSVal) : truthy v = false ↔ AbsentOrFalsy v := by
  unfold AbsentOrFalsy
  cases v with
  | undefined => simp [truthy]
  | null => simp [truthy]
  | bool b => cases b <;> simp [truthy]
  | num n => simp [truthy]
  | str s => simp [truthy]
  | date d => simp [truthy]
  | object r => simp [truthy]

theorem truthy_str (s : String) (h : s ≠ "") : truthy (.str s) = true := by
  simp [truthy, h]

/-! ## Create -/

theorem postHandler_refused (t : Table) (project : String) (body : Body) (now : JSDate)
    (draws : Fin 24 → Fin 16)
    (h : (!truthy body.issue_title || !truthy body.issue_text || !truthy body.created_by) = true) :
    postHandler t project body now draws = (t, .error "required field(s) missing") := by
  unfold postHandler
  simp only [h, if_true]

theorem postHandler_accepted (t : Table) (project : String) (body : Body) (now : JSDate)
    (draws : Fin 24 → Fin 16)
    (h : ¬ (!truthy body.issue_title || !truthy body.issue_text || !truthy body.created_by) = true) :
    ∃ r : Issue, postHandler t project body now draws
      = (mapSet (getIssuesArray t project).1 project ((getIssuesArray t project).2 ++ [r]),
          .issue r) := by
  unfold postHandler
  simp only [h, if_false]
  exact ⟨_, rfl⟩

/-- C1: Create answers exactly the error "required field(s) missing" if and
only if at least one of `issue_title`, `issue_text`, `created_by` is absent or
falsy; and whenever it answers that error the store is the same as before, so
the issue sequence of every project is unchanged. -/
theorem create_missing_required (t : Table) (project : String) (body : Body) (now : JSDate)
    (draws : Fin 24 → Fin 16) :
    ((postHandler t project body now draws).2 = .error "required field(s) missing" ↔
      (AbsentOrFalsy body.issue_title ∨ AbsentOrFalsy body.issue_text ∨
        AbsentOrFalsy body.created_by)) ∧
    ((postHandler t project body now draws).2 = .error "required field(s) missing" →
      (postHandler t project body now draws).1 = t ∧
      ∀ q, issuesOf (postHandler t project body now draws).1 q = issuesOf t q) := by
  simp only [← truthy_eq_false_iff]
  unfold postHandler
  cases h1 : truthy body.issue_title <;> cases h2 : truthy body.issue_text <;>
    cases h3 : truthy body.created_by <;> simp

/-- Witness for C1: a body without `issue_text` and `created_by`, sent to a
project that already holds nothing, is refused and the store is untouched. -/
theorem create_missing_required_witness :
    (postHandler [("p", [])] "p" { issue_title := .str "T" } ⟨0, "d0"⟩ (fun _ => 0)).2
        = .error "required field(s) missing" ∧
      (postHandler [("p", [])] "p" { issue_title := .str "T" } ⟨0, "d0"⟩ (fun _ => 0)).1
        = [("p", [])] :=
  have h := create_missing_required [("p", [])] "p" { issue_title := .str "T" } ⟨0, "d0"⟩
    (fun _ => 0)
  have e := h.1.2 (Or.inr (Or.inl (Or.inl rfl)))
  ⟨e, (h.2 e).1⟩

/-- C2: when `issue_title`, `issue_text` and `created_by` are all present and
not falsy (in particular when they are non-empty strings), Create answers a record that carries
the three supplied values, `open` equal to the boolean `true`, `created_on` and
`updated_on` both equal to the clock reading, `_id` equal to the generated
identifier, and `assigned_to` / `status_text` equal to the supplied value when
one was supplied and to the empty string when it was omitted. -/
theorem create_success_record (t : Table) (project : String) (body : Body) (now : JSDate)
    (draws : Fin 24 → Fin 16)
    (h1 : ¬ AbsentOrFalsy body.issue_title) (h2 : ¬ AbsentOrFalsy body.issue_text)
    (h3 : ¬ AbsentOrFalsy body.created_by) :
    ∃ r : Issue, (postHandler t project body now draws).2 = .issue r ∧
      r.issue_title = body.issue_title ∧ r.issue_text = body.issue_text ∧
      r.created_by = body.created_by ∧
      r.open_ = .bool true ∧
      r.created_on = now ∧ r.updated_on = now ∧ r.created_on = r.updated_on ∧
      r._id = generateId draws ∧
      (body.assigned_to ≠ .undefined → r.assigned_to = body.assigned_to) ∧
      (body.assigned_to = .undefined → r.assigned_to = .str "") ∧
      (body.status_text ≠ .undefined → r.status_text = body.status_text) ∧
      (body.status_text = .undefined → r.status_text = .str "") := by
  rw [← truthy_eq_false_iff, Bool.not_eq_false] at h1 h2 h3
  unfold postHandler
  simp only [h1, h2, h3, Bool.not_true, Bool.or_self, Bool.false_eq_true, if_false]
  refine ⟨_, rfl, rfl, rfl, rfl, rfl, rfl, rfl, rfl, rfl, ?_, ?_, ?_, ?_⟩
  · intro h; simp [h]
  · intro h; simp [h]
  · intro h; simp [h]
  · intro h; simp [h]

/-- Witness for C2: the request of the functional test "only required
fields". -/
theorem create_success_record_witness :
    ∃ r : Issue,
      (postHandler [] "apitest"
        { issue_title := .str "Required Only", issue_text := .str "Just the basics",
          created_by := .str "chai" } ⟨7, "d7"⟩ (fun _ => 10)).2 = .issue r ∧
      r.issue_title = .str "Required Only" ∧ r.open_ = .bool true ∧
      r.created_on = r.updated_on ∧ r._id = "aaaaaaaaaaaaaaaaaaaaaaaa" ∧
      r.assigned_to = .str "" ∧ r.status_text = .str "" := by
  obtain ⟨r, hr, ht, _, _, ho, _, _, hc, hi, _, ha, _, hs⟩ :=
    create_success_record [] "apitest"
      { issue_title := .str "Required Only", issue_text := .str "Just the basics",
        created_by := .str "chai" } ⟨7, "d7"⟩ (fun _ => 10) (by decide) (by decide) (by decide)
  exact ⟨r, hr, ht, ho, hc, hi.trans (by decide), ha rfl, hs rfl⟩

/-- C3: a successful Create on project `P` leaves `P` with its previous
sequence (empty when `P` had no entry) followed by exactly one record, the one
answered to the caller; so the length grows by one and every earlier position
holds the record it held before. -/
theorem create_appends (t : Table) (project : String) (body : Body) (now : JSDate)
    (draws : Fin 24 → Fin 16) (r : Issue)
    (h : (postHandler t project body now draws).2 = .issue r) :
    issuesOf (postHandler t project body now draws).1 project = issuesOf t project ++ [r] ∧
    (issuesOf (postHandler t project body now draws).1 project).length
      = (issuesOf t project).length + 1 ∧
    ∀ i, i < (issuesOf t project).length →
      (issuesOf (postHandler t project body now draws).1 project)[i]?
        = (issuesOf t project)[i]? := by
  have key : issuesOf (postHandler t project body now draws).1 project
      = issuesOf t project ++ [r] := by
    by_cases hc : (!truthy body.issue_title || !truthy body.issue_text ||
        !truthy body.created_by) = true
    · rw [postHandler_refused t project body now draws hc] at h
      simp at h
    · obtain ⟨r', hr⟩ := postHandler_accepted t project body now draws hc
      rw [hr] at h ⊢
      simp only [Response.issue.injEq] at h
      simp only [issuesOf_mapSet, if_true, getIssuesArray_snd, h]
  refine ⟨key, ?_, ?_⟩
  · rw [key]; simp
  · intro i hi
    rw [key, List.getElem?_append_left hi]

/-- Witness for C3: a second issue created in a project that holds one. -/
theorem create_appends_witness :
    issuesOf (postHandler
        [("p", [⟨.str "A", .str "B", .str "C", .str "", .str "", ⟨1, "d1"⟩, ⟨1, "d1"⟩,
          .bool true, "111111111111111111111111"⟩])] "p"
        { issue_title := .str "T", issue_text := .str "X", created_by := .str "U" }
        ⟨2, "d2"⟩ (fun _ => 2)).1 "p"
      = [⟨.str "A", .str "B", .str "C", .str "", .str "", ⟨1, "d1"⟩, ⟨1, "d1"⟩,
          .bool true, "111111111111111111111111"⟩,
         ⟨.str "T", .str "X", .str "U", .str "", .str "", ⟨2, "d2"⟩, ⟨2, "d2"⟩,
          .bool true, "222222222222222222222222"⟩] :=
  (create_appends
    [("p", [⟨.str "A", .str "B", .str "C", .str "", .str "", ⟨1, "d1"⟩, ⟨1, "d1"⟩,
      .bool true, "111111111111111111111111"⟩])] "p"
    { issue_title := .str "T", issue_text := .str "X", created_by := .str "U" }
    ⟨2, "d2"⟩ (fun _ => 2)
    ⟨.str "T", .str "X", .str "U", .str "", .str "", ⟨2, "d2"⟩, ⟨2, "d2"⟩,
      .bool true, "222222222222222222222222"⟩ (by decide)).1.trans (by decide)

/-! ## List -/

theorem toStr_normalizeBoolean_str (s : String) :
    toStr (normalizeBoolean (.str s)) = some s := by
  unfold normalizeBoolean
  by_cases h1 : s = "true"
  · simp [h1, toStr]
  · by_cases h2 : s = "false"
    · simp [h2, toStr]
    · simp [h1, h2, toStr]

theorem lookup_stringCriteria (c : List (String × String)) (k : String) :
    List.lookup k (stringCriteria c) = (List.lookup k c).map JSVal.str := by
  induction c with
  | nil => simp [stringCriteria]
  | cons e rest ih =>
    obtain ⟨a, b⟩ := e
    unfold stringCriteria at ih ⊢
    simp only [List.map_cons, lookup_cons_ite, ih]
    by_cases h : k = a <;> simp [h]

theorem objKeys_stringCriteria (c : List (String × String)) :
    objKeys (stringCriteria c) = c.map Prod.fst := by
  simp [objKeys, stringCriteria]

/-- The query after the coercion of `open` that the GET handler applies. -/
theorem coerced_query_facts (c : List (String × String)) :
    objKeys (if hasOwnProperty (stringCriteria c) "open" then
        objSet (stringCriteria c) "open" (normalizeBoolean (objGet (stringCriteria c) "open"))
      else stringCriteria c) = objKeys (stringCriteria c) ∧
    ∀ k, toStr (objGet (if hasOwnProperty (stringCriteria c) "open" then
        objSet (stringCriteria c) "open" (normalizeBoolean (objGet (stringCriteria c) "open"))
      else stringCriteria c) k) = toStr (objGet (stringCriteria c) k) := by
  by_cases h : hasOwnProperty (stringCriteria c) "open" = true
  · simp only [h, if_true]
    refine ⟨keys_setEntry _ _ _ h, ?_⟩
    intro k
    unfold objGet objSet
    rw [lookup_setEntry]
    by_cases hk : k = "open"
    · subst hk
      simp only [if_true, Option.getD_some]
      rw [lookup_stringCriteria]
      unfold hasOwnProperty at h
      rw [lookup_stringCriteria] at h
      cases hl : List.lookup "open" c with
      | none => simp [hl] at h
      | some v =>
        simp only [Option.map_some', Option.getD_some, toStr_normalizeBoolean_str]
        rfl
    · simp [hk]
  · simp [h]

theorem getHandler_snd (t : Table) (project : String) (reqQuery : JSObject) :
    (getHandler t project reqQuery).2
      = answerOf (filterIssues
          (if hasOwnProperty reqQuery "open" then
            objSet reqQuery "open" (normalizeBoolean (objGet reqQuery "open"))
          else reqQuery) (issuesOf t project)) := by
  unfold getHandler
  simp only [getIssuesArray_snd]

theorem everyKey_total (issue : Issue) (query : JSObject) (f : String → Bool)
    (keys : List String) (h : ∀ k ∈ keys, keyMatches issue query k = some (f k)) :
    everyKey issue query keys = some (keys.all f) := by
  induction keys with
  | nil => rfl
  | cons k rest ih =>
    have hk := h k (List.mem_cons_self _ _)
    have hrest := ih fun k' hk' => h k' (List.mem_cons_of_mem _ hk')
    unfold everyKey
    rw [hk]
    cases hf : f k with
    | false => simp [hf]
    | true => simp [hrest, hf]

theorem filterIssues_total (query : JSObject) (g : Issue → Bool) (issues : List Issue)
    (h : ∀ r ∈ issues, everyKey r query (objKeys query) = some (g r)) :
    filterIssues query issues = some (issues.filter g) := by
  induction issues with
  | nil => rfl
  | cons r rest ih =>
    have hr := h r (List.mem_cons_self _ _)
    have hrest := ih fun r' hr' => h r' (List.mem_cons_of_mem _ hr')
    unfold filterIssues
    rw [hr, hrest]
    cases hg : g r <;> simp [List.filter_cons, hg]

theorem propertyOf_eq (r : Issue) (k : String) :
    propertyOf r k = if hasProperty k r then some (getProperty r k) else none := by
  by_cases h1 : k = "_id"
  · subst h1; rfl
  by_cases h2 : k = "issue_title"
  · subst h2; rfl
  by_cases h3 : k = "issue_text"
  · subst h3; rfl
  by_cases h4 : k = "created_by"
  · subst h4; rfl
  by_cases h5 : k = "assigned_to"
  · subst h5; rfl
  by_cases h6 : k = "status_text"
  · subst h6; rfl
  by_cases h7 : k = "open"
  · subst h7; rfl
  by_cases h8 : k = "created_on"
  · subst h8; rfl
  by_cases h9 : k = "updated_on"
  · subst h9; rfl
  have hf : fieldValue r k = none := by
    simp [fieldValue, h1, h2, h3, h4, h5, h6, h7, h8, h9]
  have hg : getProperty r k = objGet objectPrototype k := by
    simp [getProperty, h1, h2, h3, h4, h5, h6, h7, h8, h9]
  have hh : hasProperty k r = hasOwnProperty objectPrototype k := by
    simp [hasProperty, issueKeys, h1, h2, h3, h4, h5, h6, h7, h8, h9]
  unfold propertyOf
  rw [hf, hg, hh]
  unfold hasOwnProperty objGet
  cases List.lookup k objectPrototype <;> simp

theorem lookup_mem {β : Type} (l : List (String × β)) (k : String) (v : β)
    (h : List.lookup k l = some v) : (k, v) ∈ l := by
  induction l with
  | nil => simp at h
  | cons e rest ih =>
    obtain ⟨a, b⟩ := e
    rw [lookup_cons_ite] at h
    by_cases hk : k = a
    · simp only [hk, if_true, Option.some.injEq] at h
      rw [hk, h]
      exact List.mem_cons_self _ _
    · rw [if_neg hk] at h
      exact List.mem_cons_of_mem _ (ih h)

theorem objectPrototype_printable :
    ∀ e ∈ objectPrototype, hasStringForm e.2 = true := by
  decide

theorem getProperty_printable (r : Issue) (hr : issuePrintable r = true) (k : String) :
    ∃ a, toStr (getProperty r k) = some a := by
  simp only [issuePrintable, hasStringForm, Bool.and_eq_true, Option.isSome_iff_exists] at hr
  obtain ⟨⟨⟨⟨⟨h1, h2⟩, h3⟩, h4⟩, h5⟩, h6⟩ := hr
  unfold getProperty
  split
  · exact h1
  split
  · exact h2
  split
  · exact h3
  split
  · exact h4
  split
  · exact h5
  split
  · exact ⟨_, rfl⟩
  split
  · exact ⟨_, rfl⟩
  split
  · exact h6
  split
  · exact ⟨_, rfl⟩
  unfold objGet
  cases hl : List.lookup k objectPrototype with
  | none => exact ⟨_, rfl⟩
  | some v =>
    have hm : (k, v) ∈ objectPrototype := lookup_mem _ _ _ hl
    have := objectPrototype_printable _ hm
    simpa [hasStringForm, Option.isSome_iff_exists] using this

theorem toStr_objGet_stringCriteria (c : List (String × String)) (k s : String)
    (h : c.lookup k = some s) : toStr (objGet (stringCriteria c) k) = some s := by
  unfold objGet
  rw [lookup_stringCriteria, h]
  rfl

theorem lookup_of_mem_keys (c : List (String × String)) (k : String)
    (h : k ∈ c.map Prod.fst) : ∃ s, c.lookup k = some s := by
  induction c with
  | nil => simp at h
  | cons e rest ih =>
    obtain ⟨a, b⟩ := e
    rw [lookup_cons_ite]
    by_cases hk : k = a
    · exact ⟨b, by rw [if_pos hk]⟩
    · rw [if_neg hk]
      apply ih
      simpa [hk] using h

theorem keyMatches_spec (r : Issue) (hr : issuePrintable r = true)
    (c : List (String × String)) (query : JSObject) (k : String) (hk : k ∈ c.map Prod.fst)
    (hv : toStr (objGet query k) = toStr (objGet (stringCriteria c) k)) :
    keyMatches r query k = some (decide ((propertyOf r k).bind toStr = c.lookup k)) := by
  obtain ⟨s, hs⟩ := lookup_of_mem_keys c k hk
  have hq : toStr (objGet query k) = some s := by
    rw [hv, toStr_objGet_stringCriteria c k s hs]
  rw [propertyOf_eq, hs]
  unfold keyMatches
  cases hp : hasProperty k r with
  | false => simp
  | true =>
    obtain ⟨a, ha⟩ := getProperty_printable r hr k
    simp [ha, hq]
    by_cases h : a = s <;> simp [h]

theorem filterIssues_no_keys (query : JSObject) (h : objKeys query = [])
    (issues : List Issue) : filterIssues query issues = some issues := by
  have := filterIssues_total query (fun _ => true) issues (by
    intro r _
    rw [h]
    rfl)
  simpa using this

/-- C4, as stated, fails.  First, the criterion `toString`, with the text of the
inherited function as its value, makes List answer every record, although no
record has a field `toString`: the handler tests `key in issue`, which is also
true of the names inherited from `Object.prototype`.  Second, once an Update
has stored an `open` for which `String(...)` throws, List with `open=true`
answers no sequence at all. -/
theorem list_inherited_counterexample :
    (getHandler sampleTable "apitest"
        (stringCriteria [("toString", "function toString() \x7b [native code] \x7d")])).2
      = .issues [sampleIssue1, sampleIssue2] ∧
    fieldValue sampleIssue1 "toString" = none ∧
    fieldValue sampleIssue2 "toString" = none ∧
    (getHandler (run [] unprintableOpenOps) "p" (stringCriteria [("open", "true")])).2
      = .throws ∧
    ¬ (∀ (t : Table) (project : String) (c : List (String × String)) (l : List Issue),
        (getHandler t project (stringCriteria c)).2 = .issues l →
        ∀ r ∈ l, ∀ k ∈ c.map Prod.fst, (fieldValue r k).isSome = true) := by
  have h1 : (getHandler sampleTable "apitest"
        (stringCriteria [("toString", "function toString() \x7b [native code] \x7d")])).2
      = .issues [sampleIssue1, sampleIssue2] := by decide
  refine ⟨h1, by decide, by decide, by decide, ?_⟩
  intro hall
  have := hall sampleTable "apitest" _ _ h1 sampleIssue1 (List.mem_cons_self _ _)
    "toString" (by decide)
  revert this
  decide

/-- C4, amended: when every value stored in the records of the project has a
string form, List with string-valued criteria answers exactly the records of
the project, in stored order, for which every key of the criteria names a
property of the record, either one of the nine fields of the data model or a
property inherited from `Object.prototype`, whose string form is the
criterion's value; so a record is never answered when some key of the criteria
names neither.  With empty criteria the whole sequence is answered in order,
whatever is stored. -/
theorem list_filters_by_criteria (t : Table) (project : String) :
    (∀ c : List (String × String),
      (∀ r ∈ issuesOf t project, issuePrintable r = true) →
      (getHandler t project (stringCriteria c)).2
        = .issues ((issuesOf t project).filter fun r =>
            decide (∀ k ∈ c.map Prod.fst, (propertyOf r k).bind toStr = c.lookup k)) ∧
      ∀ l, (getHandler t project (stringCriteria c)).2 = .issues l →
        l.Sublist (issuesOf t project) ∧
        ∀ r ∈ l, ∀ k ∈ c.map Prod.fst,
          (fieldValue r k).isSome = true ∨ (objectPrototype.lookup k).isSome = true) ∧
    (getHandler t project []).2 = .issues (issuesOf t project) := by
  constructor
  · intro c hp
    have main : (getHandler t project (stringCriteria c)).2
        = .issues ((issuesOf t project).filter fun r =>
            decide (∀ k ∈ c.map Prod.fst, (propertyOf r k).bind toStr = c.lookup k)) := by
      obtain ⟨hk, hv⟩ := coerced_query_facts c
      rw [getHandler_snd]
      have hf := filterIssues_total
        (if hasOwnProperty (stringCriteria c) "open" then
          objSet (stringCriteria c) "open"
            (normalizeBoolean (objGet (stringCriteria c) "open"))
        else stringCriteria c)
        (fun r => (c.map Prod.fst).all fun k =>
          decide ((propertyOf r k).bind toStr = c.lookup k))
        (issuesOf t project) (by
          intro r hr
          rw [hk, objKeys_stringCriteria]
          apply everyKey_total
          intro k hkm
          exact keyMatches_spec r (hp r hr) c _ k hkm (hv k))
      rw [hf]
      unfold answerOf
      simp only [Response.issues.injEq]
      apply List.filter_congr
      intro r _
      rw [Bool.eq_iff_iff]
      simp only [List.all_eq_true, decide_eq_true_eq]
    refine ⟨main, ?_⟩
    intro l hl
    rw [main] at hl
    simp only [Response.issues.injEq] at hl
    subst hl
    refine ⟨List.filter_sublist _, ?_⟩
    intro r hr k hk
    rw [List.mem_filter] at hr
    have h := (of_decide_eq_true hr.2) k hk
    obtain ⟨s, hs⟩ := lookup_of_mem_keys c k hk
    rw [hs] at h
    unfold propertyOf at h
    cases hf : fieldValue r k with
    | some v => exact Or.inl rfl
    | none =>
      right
      rw [hf] at h
      cases hl : List.lookup k objectPrototype with
      | some v => rfl
      | none =>
        rw [hl] at h
        simp at h
  · rw [getHandler_snd]
    simp only [hasOwnProperty, List.lookup_nil, Option.isSome_none, Bool.false_eq_true,
      if_false]
    rw [filterIssues_no_keys [] rfl]
    rfl

/-- Witness for the amended C4: on the sample project, whose stored values all
have string forms, the query of the functional test "multiple filters"
answers the open issue, and a criterion on a name that no record has answers
nothing, even with the value `undefined`. -/
theorem list_filters_by_criteria_witness :
    (getHandler sampleTable "apitest"
        (stringCriteria [("open", "true"), ("created_by", "C")])).2 = .issues [sampleIssue1] ∧
    (getHandler sampleTable "apitest" (stringCriteria [("foo", "undefined")])).2
      = .issues [] :=
  ⟨(((list_filters_by_criteria sampleTable "apitest").1
      [("open", "true"), ("created_by", "C")] (by decide)).1).trans (by decide),
    (((list_filters_by_criteria sampleTable "apitest").1
      [("foo", "undefined")] (by decide)).1).trans (by decide)⟩

/-! ## Update -/

theorem strictEqStr_iff (s : String) (v : JSVal) : strictEqStr s v = true ↔ JSVal.str s = v := by
  cases v <;> simp [strictEqStr]

theorem findIndex_eq_none_iff (issues : List Issue) (_id : JSVal) :
    findIndex issues _id = none ↔ ¬ HasId issues _id := by
  unfold findIndex HasId
  rw [List.findIdx?_eq_none_iff]
  constructor
  · rintro h ⟨r, hr, e⟩
    have := h r hr
    rw [(strictEqStr_iff r._id _id).2 e] at this
    simp at this
  · intro h r hr
    cases hs : strictEqStr r._id _id with
    | false => rfl
    | true => exact absurd ⟨r, hr, (strictEqStr_iff _ _).1 hs⟩ h

theorem updateFieldsCount_eq_zero_iff (body : Body) :
    updateFieldsCount (buildUpdateFields body) = 0 ↔ NoFieldSupplied body := by
  unfold updateFieldsCount buildUpdateFields NoFieldSupplied
  rw [List.countP_eq_zero]
  simp only [List.mem_cons, List.mem_singleton, forall_eq_or_imp, forall_eq]
  by_cases h1 : body.issue_title = .undefined <;> by_cases h2 : body.issue_text = .undefined <;>
    by_cases h3 : body.created_by = .undefined <;> by_cases h4 : body.assigned_to = .undefined <;>
    by_cases h5 : body.status_text = .undefined <;> by_cases h6 : body.open_ = .undefined <;>
    simp [h1, h2, h3, h4, h5, h6]

theorem putHandler_missing (t : Table) (project : String) (body : Body) (now : JSDate)
    (h : truthy body._id = false) :
    putHandler t project body now = (t, .error "missing _id") := by
  unfold putHandler
  simp [h]

theorem putHandler_nofields (t : Table) (project : String) (body : Body) (now : JSDate)
    (h : truthy body._id = true) (hc : updateFieldsCount (buildUpdateFields body) = 0) :
    putHandler t project body now = (t, .errorWithId "no update field(s) sent" body._id) := by
  unfold putHandler
  simp [h, hc]

theorem putHandler_notfound (t : Table) (project : String) (body : Body) (now : JSDate)
    (h : truthy body._id = true) (hc : updateFieldsCount (buildUpdateFields body) ≠ 0)
    (hf : findIndex (issuesOf t project) body._id = none) :
    putHandler t project body now
      = ((getIssuesArray t project).1, .errorWithId "could not update" body._id) := by
  unfold putHandler
  simp [h, hc, getIssuesArray_snd, hf]

theorem putHandler_found (t : Table) (project : String) (body : Body) (now : JSDate)
    (index : Nat)
    (h : truthy body._id = true) (hc : updateFieldsCount (buildUpdateFields body) ≠ 0)
    (hf : findIndex (issuesOf t project) body._id = some index) :
    putHandler t project body now
      = (mapSet (getIssuesArray t project).1 project
          ((issuesOf t project).modify
            (fun old => mergeIssue old (buildUpdateFields body) now) index),
          .resultWithId "successfully updated" body._id) := by
  unfold putHandler
  simp [h, hc, getIssuesArray_snd, hf]

/-- C5: the answer of Update is decided in this order: the error "missing _id"
when `_id` is absent or falsy (the code's test of emptiness); otherwise the
error "no update field(s) sent" with the `_id` when none of the six updatable
fields is supplied, whether or not the id exists; otherwise the error "could
not update" with the `_id` when no record of the project has that id;
otherwise the result "successfully updated" with the `_id`.  No other answer
is possible. -/
theorem update_response_order (t : Table) (project : String) (body : Body) (now : JSDate) :
    (AbsentOrFalsy body._id →
      (putHandler t project body now).2 = .error "missing _id") ∧
    (¬ AbsentOrFalsy body._id → NoFieldSupplied body →
      (putHandler t project body now).2
        = .errorWithId "no update field(s) sent" body._id) ∧
    (¬ AbsentOrFalsy body._id → ¬ NoFieldSupplied body →
      ¬ HasId (issuesOf t project) body._id →
      (putHandler t project body now).2 = .errorWithId "could not update" body._id) ∧
    (¬ AbsentOrFalsy body._id → ¬ NoFieldSupplied body →
      HasId (issuesOf t project) body._id →
      (putHandler t project body now).2
        = .resultWithId "successfully updated" body._id) ∧
    ((putHandler t project body now).2 = .error "missing _id" ∨
      (putHandler t project body now).2 = .errorWithId "no update field(s) sent" body._id ∨
      (putHandler t project body now).2 = .errorWithId "could not update" body._id ∨
      (putHandler t project body now).2 = .resultWithId "successfully updated" body._id) := by
  simp only [← truthy_eq_false_iff, ← updateFieldsCount_eq_zero_iff, ← findIndex_eq_none_iff]
  cases h : truthy body._id with
  | false => simp [putHandler_missing t project body now h]
  | true =>
    by_cases hc : updateFieldsCount (buildUpdateFields body) = 0
    · simp [putHandler_nofields t project body now h hc, hc]
    · cases hf : findIndex (issuesOf t project) body._id with
      | none =>
        simp [putHandler_notfound t project body now h hc hf, hc,
          (findIndex_eq_none_iff _ _).1 hf]
      | some index => simp [putHandler_found t project body now index h hc hf, hc]

/-- Witness for C5: the request of the functional test "update one field". -/
theorem update_response_order_witness :
    (putHandler
      [("apitest", [⟨.str "A", .str "B", .str "C", .str "", .str "", ⟨1, "d1"⟩, ⟨1, "d1"⟩,
        .bool true, "111111111111111111111111"⟩])]
      "apitest" { _id := .str "111111111111111111111111", assigned_to := .str "dev-2" }
      ⟨2, "d2"⟩).2
    = .resultWithId "successfully updated" (.str "111111111111111111111111") :=
  (update_response_order
    [("apitest", [⟨.str "A", .str "B", .str "C", .str "", .str "", ⟨1, "d1"⟩, ⟨1, "d1"⟩,
      .bool true, "111111111111111111111111"⟩])]
    "apitest" { _id := .str "111111111111111111111111", assigned_to := .str "dev-2" }
    ⟨2, "d2"⟩).2.2.2.1 (by decide) (by decide) (by decide)

theorem findIndex_cons (x : Issue) (xs : List Issue) (_id : JSVal) :
    findIndex (x :: xs) _id
      = if strictEqStr x._id _id then some 0 else (findIndex xs _id).map (· + 1) := by
  unfold findIndex
  rw [List.findIdx?_cons]
  by_cases h : strictEqStr x._id _id = true
  · simp [h]
  · simp only [h, Bool.false_eq_true, if_false]
    rw [List.findIdx?_succ]

/-- The index found by `findIndex` splits the sequence at the first record that
carries the identifier. -/
theorem findIndex_some_split (l : List Issue) (_id : JSVal) (index : Nat)
    (h : findIndex l _id = some index) :
    ∃ pre old post, l = pre ++ old :: post ∧ pre.length = index ∧
      JSVal.str old._id = _id ∧ ∀ r ∈ pre, JSVal.str r._id ≠ _id := by
  induction l generalizing index with
  | nil => simp [findIndex] at h
  | cons x xs ih =>
    rw [findIndex_cons] at h
    by_cases hx : strictEqStr x._id _id = true
    · simp only [hx, if_true, Option.some.injEq] at h
      exact ⟨[], x, xs, rfl, by simpa using h, (strictEqStr_iff _ _).1 hx, by simp⟩
    · simp only [hx, Bool.false_eq_true, if_false] at h
      cases hf : findIndex xs _id with
      | none => simp [hf] at h
      | some i =>
        simp only [hf, Option.map_some', Option.some.injEq] at h
        obtain ⟨pre, old, post, e, hl, ho, hp⟩ := ih i hf
        refine ⟨x :: pre, old, post, by simp [e], by simp [hl, h], ho, ?_⟩
        intro r hr
        rcases List.mem_cons.1 hr with rfl | hr
        · exact fun e => hx ((strictEqStr_iff _ _).2 e)
        · exact hp r hr

theorem modify_append_length (f : Issue → Issue) (pre : List Issue) (old : Issue)
    (post : List Issue) :
    (pre ++ old :: post).modify f pre.length = pre ++ f old :: post := by
  induction pre with
  | nil => simp
  | cons x xs ih => simp [ih]

theorem eraseIdx_append_length (pre : List Issue) (old : Issue) (post : List Issue) :
    (pre ++ old :: post).eraseIdx pre.length = pre ++ post := by
  induction pre with
  | nil => simp
  | cons x xs ih => simp [ih]

/-- C6: after a successful Update the sequence of the project is the previous
one with a single position rewritten: the position of the first record whose
`_id` equals the id.  The record there has each supplied field among the six
replaced by the supplied value (`open` after `normalizeBoolean`), `updated_on`
set to the clock reading, and `_id`, `created_on` and every field that was not
supplied as before.  The records before and after it are unchanged, so length
and order are kept. -/
theorem update_success_effect (t : Table) (project : String) (body : Body) (now : JSDate)
    (h : (putHandler t project body now).2
      = .resultWithId "successfully updated" body._id) :
    ∃ pre old post,
      issuesOf t project = pre ++ old :: post ∧
      JSVal.str old._id = body._id ∧
      (∀ r ∈ pre, JSVal.str r._id ≠ body._id) ∧
      issuesOf (putHandler t project body now).1 project
        = pre ++
          { issue_title :=
              if body.issue_title = .undefined then old.issue_title else body.issue_title
            issue_text :=
              if body.issue_text = .undefined then old.issue_text else body.issue_text
            created_by :=
              if body.created_by = .undefined then old.created_by else body.created_by
            assigned_to :=
              if body.assigned_to = .undefined then old.assigned_to else body.assigned_to
            status_text :=
              if body.status_text = .undefined then old.status_text else body.status_text
            created_on := old.created_on
            updated_on := now
            open_ :=
              if body.open_ = .undefined then old.open_ else normalizeBoolean body.open_
            _id := old._id } :: post ∧
      (issuesOf (putHandler t project body now).1 project).length
        = (issuesOf t project).length := by
  cases ht : truthy body._id with
  | false => rw [putHandler_missing t project body now ht] at h; simp at h
  | true =>
    by_cases hc : updateFieldsCount (buildUpdateFields body) = 0
    · rw [putHandler_nofields t project body now ht hc] at h; simp at h
    · cases hf : findIndex (issuesOf t project) body._id with
      | none => rw [putHandler_notfound t project body now ht hc hf] at h; simp at h
      | some index =>
        obtain ⟨pre, old, post, e, hl, ho, hp⟩ := findIndex_some_split _ _ _ hf
        refine ⟨pre, old, post, e, ho, hp, ?_⟩
        rw [putHandler_found t project body now index ht hc hf]
        simp only [issuesOf_mapSet, if_true]
        rw [e, ← hl, modify_append_length]
        refine ⟨?_, by simp⟩
        congr 2
        unfold mergeIssue buildUpdateFields
        by_cases h1 : body.issue_title = .undefined <;>
          by_cases h2 : body.issue_text = .undefined <;>
          by_cases h3 : body.created_by = .undefined <;>
          by_cases h4 : body.assigned_to = .undefined <;>
          by_cases h5 : body.status_text = .undefined <;>
          by_cases h6 : body.open_ = .undefined <;>
          simp [h1, h2, h3, h4, h5, h6]

/-- Witness for C6: the request of the functional test "update multiple
fields", addressed to the second sample issue. -/
theorem update_success_effect_witness :
    ∃ pre old post,
      issuesOf sampleTable "apitest" = pre ++ old :: post ∧
      JSVal.str old._id = JSVal.str "222222222222222222222222" ∧
      (∀ r ∈ pre, JSVal.str r._id ≠ JSVal.str "222222222222222222222222") ∧
      issuesOf (putHandler sampleTable "apitest"
          { _id := .str "222222222222222222222222", issue_title := .str "Updated Title",
            open_ := .str "true" } ⟨9, "d9"⟩).1 "apitest"
        = pre ++
          { issue_title := .str "Updated Title"
            issue_text := old.issue_text
            created_by := old.created_by
            assigned_to := old.assigned_to
            status_text := old.status_text
            created_on := old.created_on
            updated_on := ⟨9, "d9"⟩
            open_ := .bool true
            _id := old._id } :: post ∧
      (issuesOf (putHandler sampleTable "apitest"
          { _id := .str "222222222222222222222222", issue_title := .str "Updated Title",
            open_ := .str "true" } ⟨9, "d9"⟩).1 "apitest").length
        = (issuesOf sampleTable "apitest").length :=
  update_success_effect sampleTable "apitest"
    { _id := .str "222222222222222222222222", issue_title := .str "Updated Title",
      open_ := .str "true" } ⟨9, "d9"⟩ (by decide)

/-- C7: whenever Update answers one of its three errors ("missing _id", "no
update field(s) sent", "could not update"), the issue sequence of every
project, read as empty when the store has no entry for it, is the same after
the call as before. -/
theorem update_error_no_mutation (t : Table) (project : String) (body : Body) (now : JSDate)
    (h : (putHandler t project body now).2 = .error "missing _id" ∨
      (putHandler t project body now).2 = .errorWithId "no update field(s) sent" body._id ∨
      (putHandler t project body now).2 = .errorWithId "could not update" body._id) :
    ∀ q, issuesOf (putHandler t project body now).1 q = issuesOf t q := by
  intro q
  cases ht : truthy body._id with
  | false => rw [putHandler_missing t project body now ht]
  | true =>
    by_cases hc : updateFieldsCount (buildUpdateFields body) = 0
    · rw [putHandler_nofields t project body now ht hc]
    · cases hf : findIndex (issuesOf t project) body._id with
      | none =>
        rw [putHandler_notfound t project body now ht hc hf]
        exact issuesOf_getIssuesArray t project q
      | some index =>
        rw [putHandler_found t project body now index ht hc hf] at h
        simp at h

/-- Witness for C7: the request of the functional test "update with an invalid
_id", sent to a project the store has never seen. -/
theorem update_error_no_mutation_witness :
    (putHandler sampleTable "other"
        { _id := .str "ffffffffffffffffffffffff", issue_title := .str "new" } ⟨9, "d9"⟩).2
      = .errorWithId "could not update" (.str "ffffffffffffffffffffffff") ∧
    ∀ q, issuesOf (putHandler sampleTable "other"
        { _id := .str "ffffffffffffffffffffffff", issue_title := .str "new" } ⟨9, "d9"⟩).1 q
      = issuesOf sampleTable q :=
  ⟨by decide,
    update_error_no_mutation sampleTable "other"
      { _id := .str "ffffffffffffffffffffffff", issue_title := .str "new" } ⟨9, "d9"⟩
      (Or.inr (Or.inr (by decide)))⟩

/-! ## Delete -/

theorem deleteHandler_missing (t : Table) (project : String) (body : Body)
    (h : truthy body._id = false) :
    deleteHandler t project body = (t, .error "missing _id") := by
  unfold deleteHandler
  simp [h]

theorem deleteHandler_notfound (t : Table) (project : String) (body : Body)
    (h : truthy body._id = true) (hf : findIndex (issuesOf t project) body._id = none) :
    deleteHandler t project body
      = ((getIssuesArray t project).1, .errorWithId "could not delete" body._id) := by
  unfold deleteHandler
  simp [h, getIssuesArray_snd, hf]

theorem deleteHandler_found (t : Table) (project : String) (body : Body) (index : Nat)
    (h : truthy body._id = true) (hf : findIndex (issuesOf t project) body._id = some index) :
    deleteHandler t project body
      = (mapSet (getIssuesArray t project).1 project ((issuesOf t project).eraseIdx index),
          .resultWithId "successfully deleted" body._id) := by
  unfold deleteHandler
  simp [h, getIssuesArray_snd, hf]

/-- C8: Delete answers the error "missing _id" when `_id` is absent or falsy
(the code's test of emptiness); otherwise the error "could not delete" with the
`_id` when no record of the project has that id; otherwise the result
"successfully deleted" with the `_id`.  In both error cases the issue sequence
of every project is unchanged. -/
theorem delete_response (t : Table) (project : String) (body : Body) :
    (AbsentOrFalsy body._id →
      (deleteHandler t project body).2 = .error "missing _id" ∧
      ∀ q, issuesOf (deleteHandler t project body).1 q = issuesOf t q) ∧
    (¬ AbsentOrFalsy body._id → ¬ HasId (issuesOf t project) body._id →
      (deleteHandler t project body).2 = .errorWithId "could not delete" body._id ∧
      ∀ q, issuesOf (deleteHandler t project body).1 q = issuesOf t q) ∧
    (¬ AbsentOrFalsy body._id → HasId (issuesOf t project) body._id →
      (deleteHandler t project body).2
        = .resultWithId "successfully deleted" body._id) := by
  simp only [← truthy_eq_false_iff]
  cases ht : truthy body._id with
  | false => simp [deleteHandler_missing t project body ht]
  | true =>
    cases hf : findIndex (issuesOf t project) body._id with
    | none =>
      have hn := (findIndex_eq_none_iff _ _).1 hf
      simp [deleteHandler_notfound t project body ht hf, hn, issuesOf_getIssuesArray]
    | some index =>
      have hn : HasId (issuesOf t project) body._id := by
        by_contra hcon
        rw [(findIndex_eq_none_iff _ _).2 hcon] at hf
        simp at hf
      simp [deleteHandler_found t project body index ht hf, hn]

/-- Witness for C8: the requests of the functional tests "delete with an
invalid _id" and "delete an issue". -/
theorem delete_response_witness :
    ((deleteHandler sampleTable "apitest" { _id := .str "ffffffffffffffffffffffff" }).2
        = .errorWithId "could not delete" (.str "ffffffffffffffffffffffff") ∧
      ∀ q, issuesOf
          (deleteHandler sampleTable "apitest" { _id := .str "ffffffffffffffffffffffff" }).1 q
        = issuesOf sampleTable q) ∧
    (deleteHandler sampleTable "apitest" { _id := .str "111111111111111111111111" }).2
      = .resultWithId "successfully deleted" (.str "111111111111111111111111") :=
  ⟨(delete_response sampleTable "apitest" { _id := .str "ffffffffffffffffffffffff" }).2.1
      (by decide) (by decide),
    (delete_response sampleTable "apitest" { _id := .str "111111111111111111111111" }).2.2
      (by decide) (by decide)⟩

/-- C9: after a successful Delete the sequence of the project is the previous
one with exactly one record removed, the first record whose `_id` equals the
id: the records before it and after it stay, unchanged and in their order, and
the length is one less. -/
theorem delete_success_effect (t : Table) (project : String) (body : Body)
    (h : (deleteHandler t project body).2
      = .resultWithId "successfully deleted" body._id) :
    ∃ pre old post,
      issuesOf t project = pre ++ old :: post ∧
      JSVal.str old._id = body._id ∧
      (∀ r ∈ pre, JSVal.str r._id ≠ body._id) ∧
      issuesOf (deleteHandler t project body).1 project = pre ++ post ∧
      (issuesOf (deleteHandler t project body).1 project).length + 1
        = (issuesOf t project).length := by
  cases ht : truthy body._id with
  | false => rw [deleteHandler_missing t project body ht] at h; simp at h
  | true =>
    cases hf : findIndex (issuesOf t project) body._id with
    | none => rw [deleteHandler_notfound t project body ht hf] at h; simp at h
    | some index =>
      obtain ⟨pre, old, post, e, hl, ho, hp⟩ := findIndex_some_split _ _ _ hf
      refine ⟨pre, old, post, e, ho, hp, ?_⟩
      rw [deleteHandler_found t project body index ht hf]
      simp only [issuesOf_mapSet, if_true]
      rw [e, ← hl, eraseIdx_append_length]
      refine ⟨rfl, ?_⟩
      simp only [List.length_append, List.length_cons]
      omega

/-- Witness for C9: the first sample issue is deleted and the second stays. -/
theorem delete_success_effect_witness :
    ∃ pre old post,
      issuesOf sampleTable "apitest" = pre ++ old :: post ∧
      JSVal.str old._id = JSVal.str "111111111111111111111111" ∧
      (∀ r ∈ pre, JSVal.str r._id ≠ JSVal.str "111111111111111111111111") ∧
      issuesOf (deleteHandler sampleTable "apitest"
          { _id := .str "111111111111111111111111" }).1 "apitest" = pre ++ post ∧
      (issuesOf (deleteHandler sampleTable "apitest"
          { _id := .str "111111111111111111111111" }).1 "apitest").length + 1
        = (issuesOf sampleTable "apitest").length :=
  delete_success_effect sampleTable "apitest" { _id := .str "111111111111111111111111" }
    (by decide)

theorem getHandler_empty_query (t : Table) (project : String) :
    (getHandler t project []).2 = .issues (issuesOf t project) := by
  rw [getHandler_snd]
  simp only [hasOwnProperty, List.lookup_nil, Option.isSome_none, Bool.false_eq_true,
    if_false]
  rw [filterIssues_no_keys [] rfl]
  rfl

/-- C10, as stated, fails: two Create requests whose identifiers collide are
followed by a Delete of that identifier; the Delete succeeds, removes the
first of the two records, and the List that follows still answers the second
one, which carries the deleted `_id`. -/
theorem delete_then_list_counterexample :
    ((deleteHandler (run [] collidingCreates) "p"
        { _id := .str "000000000000000000000000" }).2
      = .resultWithId "successfully deleted" (.str "000000000000000000000000") ∧
    (getHandler (deleteHandler (run [] collidingCreates) "p"
        { _id := .str "000000000000000000000000" }).1 "p" []).2
      = .issues [⟨.str "T", .str "X", .str "U", .str "", .str "", ⟨2, "d2"⟩, ⟨2, "d2"⟩,
          .bool true, "000000000000000000000000"⟩]) ∧
    ¬ (∀ t : Table, Reachable t → ∀ (project : String) (body : Body),
        (deleteHandler t project body).2
          = .resultWithId "successfully deleted" body._id →
        ∀ l, (getHandler (deleteHandler t project body).1 project []).2 = .issues l →
          ∀ r ∈ l, JSVal.str r._id ≠ body._id) := by
  have h1 : (deleteHandler (run [] collidingCreates) "p"
        { _id := .str "000000000000000000000000" }).2
      = .resultWithId "successfully deleted" (.str "000000000000000000000000") := by decide
  have h2 : (getHandler (deleteHandler (run [] collidingCreates) "p"
        { _id := .str "000000000000000000000000" }).1 "p" []).2
      = .issues [⟨.str "T", .str "X", .str "U", .str "", .str "", ⟨2, "d2"⟩, ⟨2, "d2"⟩,
          .bool true, "000000000000000000000000"⟩] := by decide
  refine ⟨⟨h1, h2⟩, ?_⟩
  intro hall
  exact hall (run [] collidingCreates) ⟨collidingCreates, rfl⟩ "p"
    { _id := .str "000000000000000000000000" } h1 _ h2 _ (List.mem_singleton.2 rfl) rfl

/-- C10, amended: in every store, if Delete on a project answers "successfully
deleted" for an id that at most one record of the project carries, then the
List with empty criteria that follows answers the sequence left by the Delete,
and no record in it carries that id. -/
theorem delete_then_list_excludes (t : Table) (project : String) (body : Body)
    (hu : idCount (issuesOf t project) body._id ≤ 1)
    (h : (deleteHandler t project body).2
      = .resultWithId "successfully deleted" body._id) :
    ∃ l, (getHandler (deleteHandler t project body).1 project []).2 = .issues l ∧
      ∀ r ∈ l, JSVal.str r._id ≠ body._id := by
  refine ⟨_, getHandler_empty_query _ _, ?_⟩
  cases ht : truthy body._id with
  | false => rw [deleteHandler_missing t project body ht] at h; simp at h
  | true =>
    cases hf : findIndex (issuesOf t project) body._id with
    | none => rw [deleteHandler_notfound t project body ht hf] at h; simp at h
    | some index =>
      obtain ⟨pre, old, post, e, hl, ho, hp⟩ := findIndex_some_split _ _ _ hf
      rw [deleteHandler_found t project body index ht hf]
      simp only [issuesOf_mapSet, if_true]
      rw [e, ← hl, eraseIdx_append_length]
      have hold : strictEqStr old._id body._id = true := (strictEqStr_iff _ _).2 ho
      have hpost : post.countP (fun r => strictEqStr r._id body._id) = 0 := by
        unfold idCount at hu
        rw [e, List.countP_append, List.countP_cons] at hu
        simp only [hold, if_true] at hu
        omega
      rw [List.countP_eq_zero] at hpost
      intro r hr
      rcases List.mem_append.1 hr with hr | hr
      · exact hp r hr
      · exact fun e => hpost r hr ((strictEqStr_iff _ _).2 e)

/-- Witness for the amended C10: the first sample issue is the only record
with its id; after its deletion the list holds the second issue alone. -/
theorem delete_then_list_excludes_witness :
    ∃ l, (getHandler (deleteHandler sampleTable "apitest"
        { _id := .str "111111111111111111111111" }).1 "apitest" []).2 = .issues l ∧
      ∀ r ∈ l, JSVal.str r._id ≠ JSVal.str "111111111111111111111111" :=
  delete_then_list_excludes sampleTable "apitest" { _id := .str "111111111111111111111111" }
    (by decide) (by decide)

/-! ## Effect of each handler on the observed sequences -/

theorem issuesOf_set_after_get (t : Table) (p q : String) (v : List Issue) :
    issuesOf (mapSet (getIssuesArray t p).1 p v) q = if q = p then v else issuesOf t q := by
  rw [issuesOf_mapSet, issuesOf_getIssuesArray]

theorem issuesOf_getHandler (t : Table) (p : String) (query : JSObject) (q : String) :
    issuesOf (getHandler t p query).1 q = issuesOf t q := by
  unfold getHandler
  exact issuesOf_getIssuesArray t p q

theorem issuesOf_postHandler (t : Table) (p : String) (body : Body) (now : JSDate)
    (draws : Fin 24 → Fin 16) :
    (∀ q, issuesOf (postHandler t p body now draws).1 q = issuesOf t q) ∨
    ∃ r : Issue, (postHandler t p body now draws).2 = .issue r ∧
      r._id = generateId draws ∧ r.created_on = now ∧ r.updated_on = now ∧
      r.open_ = .bool true ∧
      ∀ q, issuesOf (postHandler t p body now draws).1 q
        = if q = p then issuesOf t p ++ [r] else issuesOf t q := by
  by_cases hc : (!truthy body.issue_title || !truthy body.issue_text ||
      !truthy body.created_by) = true
  · left
    intro q
    rw [postHandler_refused t p body now draws hc]
  · right
    unfold postHandler
    simp only [hc, if_false]
    refine ⟨_, rfl, rfl, rfl, rfl, rfl, ?_⟩
    intro q
    simp only [getIssuesArray_snd]
    exact issuesOf_set_after_get t p q _

theorem issuesOf_putHandler (t : Table) (p : String) (body : Body) (now : JSDate) :
    (∀ q, issuesOf (putHandler t p body now).1 q = issuesOf t q) ∨
    ∃ pre old post, issuesOf t p = pre ++ old :: post ∧
      JSVal.str old._id = body._id ∧
      ∀ q, issuesOf (putHandler t p body now).1 q
        = if q = p then pre ++ mergeIssue old (buildUpdateFields body) now :: post
          else issuesOf t q := by
  cases ht : truthy body._id with
  | false => left; intro q; rw [putHandler_missing t p body now ht]
  | true =>
    by_cases hc : updateFieldsCount (buildUpdateFields body) = 0
    · left; intro q; rw [putHandler_nofields t p body now ht hc]
    · cases hf : findIndex (issuesOf t p) body._id with
      | none =>
        left; intro q
        rw [putHandler_notfound t p body now ht hc hf]
        exact issuesOf_getIssuesArray t p q
      | some index =>
        right
        obtain ⟨pre, old, post, e, hl, ho, _⟩ := findIndex_some_split _ _ _ hf
        refine ⟨pre, old, post, e, ho, ?_⟩
        intro q
        rw [putHandler_found t p body now index ht hc hf, issuesOf_set_after_get, e, ← hl,
          modify_append_length]

theorem issuesOf_deleteHandler (t : Table) (p : String) (body : Body) :
    (∀ q, issuesOf (deleteHandler t p body).1 q = issuesOf t q) ∨
    ∃ pre old post, issuesOf t p = pre ++ old :: post ∧
      ∀ q, issuesOf (deleteHandler t p body).1 q
        = if q = p then pre ++ post else issuesOf t q := by
  cases ht : truthy body._id with
  | false => left; intro q; rw [deleteHandler_missing t p body ht]
  | true =>
    cases hf : findIndex (issuesOf t p) body._id with
    | none =>
      left; intro q
      rw [deleteHandler_notfound t p body ht hf]
      exact issuesOf_getIssuesArray t p q
    | some index =>
      right
      obtain ⟨pre, old, post, e, hl, _, _⟩ := findIndex_some_split _ _ _ hf
      refine ⟨pre, old, post, e, ?_⟩
      intro q
      rw [deleteHandler_found t p body index ht hf, issuesOf_set_after_get, e, ← hl,
        eraseIdx_append_length]

/-- C11: List has no side effect on stored issues: whatever the criteria, the
issue sequence of every project, read as empty when the store has no entry for
it, is the same after the call as before, also when the handler throws; the
handler never answers one of the error objects; and for a project with no
stored issue the answer is the empty array. -/
theorem list_no_side_effect (t : Table) (project : String) (query : JSObject) :
    (∀ q, issuesOf (getHandler t project query).1 q = issuesOf t q) ∧
    ((∃ l, (getHandler t project query).2 = .issues l) ∨
      (getHandler t project query).2 = .throws) ∧
    (issuesOf t project = [] → (getHandler t project query).2 = .issues []) := by
  refine ⟨issuesOf_getHandler t project query, ?_, ?_⟩
  · rw [getHandler_snd]
    cases filterIssues _ (issuesOf t project) with
    | none => exact Or.inr rfl
    | some l => exact Or.inl ⟨l, rfl⟩
  · intro h
    rw [getHandler_snd, h]
    rfl

/-- Witness for C11: a filtered List on a project that the store has never
seen answers the empty array. -/
theorem list_no_side_effect_witness :
    (getHandler sampleTable "unknown" (stringCriteria [("open", "true")])).2 = .issues [] :=
  (list_no_side_effect sampleTable "unknown" (stringCriteria [("open", "true")])).2.2
    (by decide)

/-! ## Filtering on `open` -/

theorem getHandler_open_filter (t : Table) (project : String) (s : String)
    (hp : ∀ r ∈ issuesOf t project, hasStringForm r.open_ = true) :
    (getHandler t project (stringCriteria [("open", s)])).2
      = .issues ((issuesOf t project).filter fun r => toStr r.open_ == some s) := by
  rw [getHandler_snd]
  have hq : hasOwnProperty (stringCriteria [("open", s)]) "open" = true := by
    simp [hasOwnProperty, stringCriteria]
  have hg : objGet (stringCriteria [("open", s)]) "open" = .str s := by
    simp [objGet, stringCriteria]
  have hs : objSet (stringCriteria [("open", s)]) "open" (normalizeBoolean (.str s))
      = [("open", normalizeBoolean (.str s))] := by
    simp [objSet, stringCriteria, setEntry]
  simp only [hq, if_true, hg, hs]
  rw [filterIssues_total _ (fun r => toStr r.open_ == some s)]
  · rfl
  · intro r hr
    have hpr : hasProperty "open" r = true := by
      unfold hasProperty
      decide
    have hgr : getProperty r "open" = r.open_ := by
      simp [getProperty]
    have := hp r hr
    simp only [hasStringForm, Option.isSome_iff_exists] at this
    obtain ⟨a, ha⟩ := this
    have hv : toStr (objGet [("open", normalizeBoolean (.str s))] "open") = some s := by
      simp only [objGet, List.lookup_cons, beq_self_eq_true, Option.getD_some,
        toStr_normalizeBoolean_str]
    simp only [objKeys, List.map_cons, List.map_nil, everyKey, keyMatches, hpr, Bool.not_true,
      Bool.false_eq_true, if_false, hgr, ha, hv]
    by_cases h : a = s
    · subst h
      simp
    · have hb : (a == s) = false := by simpa using h
      simp [hb, h]

/-- C12 fails on the code: after a Create, an Update whose `open` is the array
`["true"]` stores that array, and the List with `open=true` then answers the
record, whose `open` is not the boolean `true`, in a store reached from the
empty one.  The functional test "one filter" asserts that every issue answered
to `open=true` has `open` strictly equal to `true`. -/
theorem open_filter_counterexample :
    (getHandler (run [] arrayOpenOps) "p" (stringCriteria [("open", "true")])).2
      = .issues [⟨.str "T", .str "X", .str "U", .str "", .str "", ⟨1, "d1"⟩, ⟨2, "d2"⟩,
          .object (some "true"), "000000000000000000000000"⟩] ∧
    ¬ (∀ t : Table, Reachable t → ∀ (project : String) (l : List Issue),
        (getHandler t project (stringCriteria [("open", "true")])).2 = .issues l →
        ∀ r ∈ l, r.open_ = .bool true) := by
  have h1 : (getHandler (run [] arrayOpenOps) "p" (stringCriteria [("open", "true")])).2
      = .issues [⟨.str "T", .str "X", .str "U", .str "", .str "", ⟨1, "d1"⟩, ⟨2, "d2"⟩,
          .object (some "true"), "000000000000000000000000"⟩] := by decide
  refine ⟨h1, ?_⟩
  intro hall
  have := hall (run [] arrayOpenOps) ⟨arrayOpenOps, rfl⟩ "p" _ h1 _ (List.mem_singleton.2 rfl)
  simp at this

/-! ## The identifier generator -/

theorem toDigits16_digit : ∀ d : Fin 16, Nat.toDigits 16 d.val = [Nat.digitChar d.val] := by
  decide

theorem digitChar_mem_hexDigits : ∀ d : Fin 16, Nat.digitChar d.val ∈ hexDigits := by
  decide

theorem hexDigits_indexOf :
    ∀ c ∈ hexDigits, hexDigits.indexOf c < 16 ∧ Nat.digitChar (hexDigits.indexOf c) = c := by
  decide

theorem flatten_digit_strings {α : Type} (l : List α) (f : α → Fin 16) :
    ((l.map fun i => toString16 (f i).val).map String.data).flatten
      = l.map fun i => Nat.digitChar (f i).val := by
  induction l with
  | nil => rfl
  | cons a rest ih =>
    simp only [List.map_cons, List.flatten_cons, ih]
    simp [toString16, toDigits16_digit]

theorem generateId_data (draws : Fin 24 → Fin 16) :
    (generateId draws).data = (List.finRange 24).map fun i => Nat.digitChar (draws i).val := by
  unfold generateId
  rw [String.data_join, flatten_digit_strings]

theorem generateId_length (draws : Fin 24 → Fin 16) : (generateId draws).length = 24 := by
  have h : (generateId draws).length = (generateId draws).data.length := rfl
  rw [h, generateId_data]
  simp

theorem generateId_ne_empty (draws : Fin 24 → Fin 16) : generateId draws ≠ "" := by
  intro h
  have := generateId_length draws
  rw [h] at this
  simp at this

theorem floor16_lt (x : ℚ) (h0 : 0 ≤ x) (h1 : x < 1) : floor16 x < 16 := by
  unfold floor16
  have hlt : ⌊x * 16⌋ < 16 := by
    rw [Int.floor_lt]
    push_cast
    linarith
  have hge : 0 ≤ ⌊x * 16⌋ := by
    rw [Int.floor_nonneg]
    linarith
  omega

theorem floor16_div (d : Fin 16) : floor16 ((d.val : ℚ) / 16) = d.val := by
  unfold floor16
  have : ((d.val : ℚ) / 16) * 16 = ((d.val : ℤ) : ℚ) := by
    push_cast
    field_simp
  rw [this, Int.floor_intCast]
  simp

theorem generateId_hex (draws : Fin 24 → Fin 16) :
    ∀ c ∈ (generateId draws).data, c ∈ hexDigits := by
  intro c hc
  rw [generateId_data, List.mem_map] at hc
  obtain ⟨i, _, rfl⟩ := hc
  exact digitChar_mem_hexDigits (draws i)

theorem generateId_onto (s : String) (hlen : s.length = 24)
    (hhex : ∀ c ∈ s.data, c ∈ hexDigits) :
    ∃ draws : Fin 24 → Fin 16, generateId draws = s := by
  have hl : s.data.length = 24 := hlen
  refine ⟨fun i => Fin.ofNat (hexDigits.indexOf (s.data.getD i.val default)), ?_⟩
  apply String.ext
  rw [generateId_data]
  apply List.ext_getElem
  · simp [hl]
  · intro n h1 h2
    simp only [List.getElem_map, List.getElem_finRange, Fin.cast_mk]
    have hn : n < s.data.length := h2
    rw [List.getD_eq_getElem _ _ hn]
    obtain ⟨hlt, hc⟩ := hexDigits_indexOf _ (hhex _ (List.getElem_mem hn))
    have hv : (Fin.ofNat (hexDigits.indexOf s.data[n]) : Fin 16).val
        = hexDigits.indexOf s.data[n] := by
      simp only [Fin.ofNat, Nat.mod_eq_of_lt hlt]
    rw [hv, hc]

/-- C17: for every sequence of 24 draws in `[0, 1)`, each mapped to
`floor(16 x)`, `generateId` returns a string of exactly 24 characters, each a
lowercase hexadecimal digit; and every string of 24 lowercase hexadecimal
digits is returned for some sequence of draws in `[0, 1)`. -/
theorem generateId_format :
    (∀ x : Fin 24 → ℚ, (∀ i, 0 ≤ x i ∧ x i < 1) →
      ∃ draws : Fin 24 → Fin 16, (∀ i, (draws i).val = floor16 (x i)) ∧
        (generateId draws).length = 24 ∧
        ∀ c ∈ (generateId draws).data, c ∈ hexDigits) ∧
    (∀ s : String, s.length = 24 → (∀ c ∈ s.data, c ∈ hexDigits) →
      ∃ x : Fin 24 → ℚ, (∀ i, 0 ≤ x i ∧ x i < 1) ∧
        ∃ draws : Fin 24 → Fin 16, (∀ i, (draws i).val = floor16 (x i)) ∧
          generateId draws = s) := by
  constructor
  · intro x hx
    exact ⟨fun i => ⟨floor16 (x i), floor16_lt (x i) (hx i).1 (hx i).2⟩, fun _ => rfl,
      generateId_length _, generateId_hex _⟩
  · intro s hlen hhex
    obtain ⟨draws, hd⟩ := generateId_onto s hlen hhex
    refine ⟨fun i => ((draws i).val : ℚ) / 16, ?_, draws, ?_, hd⟩
    · intro i
      have h16 : ((draws i).val : ℚ) < 16 := by exact_mod_cast (draws i).isLt
      have h0 : (0 : ℚ) ≤ ((draws i).val : ℚ) := by exact_mod_cast Nat.zero_le _
      constructor
      · positivity
      · rw [div_lt_one (by norm_num)]
        exact h16
    · intro i
      exact (floor16_div (draws i)).symm

/-- Witness for C17: the draws that are all `0` give an identifier of the
stated format, and an identifier that uses all sixteen digits is reached. -/
theorem generateId_format_witness :
    (∃ draws : Fin 24 → Fin 16, (∀ i, (draws i).val = floor16 ((fun _ => 0) i)) ∧
      (generateId draws).length = 24 ∧
      ∀ c ∈ (generateId draws).data, c ∈ hexDigits) ∧
    (∃ x : Fin 24 → ℚ, (∀ i, 0 ≤ x i ∧ x i < 1) ∧
      ∃ draws : Fin 24 → Fin 16, (∀ i, (draws i).val = floor16 (x i)) ∧
        generateId draws = "0123456789abcdef01234567") :=
  ⟨generateId_format.1 (fun _ => 0) (fun _ => ⟨le_refl 0, zero_lt_one⟩),
    generateId_format.2 "0123456789abcdef01234567" (by decide) (by decide)⟩

/-! ## Create, then Update, then List -/

theorem postHandler_issue (t : Table) (p : String) (body : Body) (now : JSDate)
    (draws : Fin 24 → Fin 16) (r : Issue)
    (h : (postHandler t p body now draws).2 = .issue r) :
    r._id = generateId draws ∧ r.open_ = .bool true ∧ r.created_on = now ∧
      r.updated_on = now ∧
      ∀ q, issuesOf (postHandler t p body now draws).1 q
        = if q = p then issuesOf t p ++ [r] else issuesOf t q := by
  rcases issuesOf_postHandler t p body now draws with hu | ⟨r', hr', hid, hc, hu, ho, heff⟩
  · by_cases hc : (!truthy body.issue_title || !truthy body.issue_text ||
        !truthy body.created_by) = true
    · rw [postHandler_refused t p body now draws hc] at h
      simp at h
    · obtain ⟨r', hr'⟩ := postHandler_accepted t p body now draws hc
      have hq := hu p
      rw [hr', issuesOf_set_after_get, if_pos rfl, getIssuesArray_snd] at hq
      simp at hq
  · rw [hr'] at h
    simp only [Response.issue.injEq] at h
    subst h
    exact ⟨hid, ho, hc, hu, heff⟩

theorem findIndex_append_fresh (pre : List Issue) (r : Issue) (_id : JSVal)
    (hfresh : ¬ HasId pre _id) (hr : JSVal.str r._id = _id) :
    findIndex (pre ++ [r]) _id = some pre.length := by
  induction pre with
  | nil =>
    rw [List.nil_append, findIndex_cons, (strictEqStr_iff _ _).2 hr]
    rfl
  | cons x xs ih =>
    have hx : strictEqStr x._id _id = false := by
      cases hs : strictEqStr x._id _id with
      | false => rfl
      | true =>
        exact absurd ⟨x, List.mem_cons_self _ _, (strictEqStr_iff _ _).1 hs⟩ hfresh
    have hxs : ¬ HasId xs _id := by
      rintro ⟨y, hy, e⟩
      exact hfresh ⟨y, List.mem_cons_of_mem _ hy, e⟩
    rw [List.cons_append, findIndex_cons, hx, ih hxs]
    simp

/-- C13, as stated, fails: in a project that already holds a record with the
identifier the Create draws, the Update that follows closes that older record
(the first with the id), so the List with `open=false` answers the older
record only and the List with `open=true` still answers the created one. -/
theorem create_update_list_counterexample :
    (step (run [] [priorCreate]) secondCreate).2
      = .issue ⟨.str "T", .str "X", .str "U", .str "", .str "", ⟨2, "d2"⟩, ⟨2, "d2"⟩,
          .bool true, "000000000000000000000000"⟩ ∧
    (step (run [] [priorCreate, secondCreate]) closeUpdate).2
      = .resultWithId "successfully updated" (.str "000000000000000000000000") ∧
    (getHandler (run [] [priorCreate, secondCreate, closeUpdate]) "p"
        (stringCriteria [("open", "false")])).2
      = .issues [⟨.str "A", .str "B", .str "C", .str "", .str "", ⟨1, "d1"⟩, ⟨3, "d3"⟩,
          .bool false, "000000000000000000000000"⟩] ∧
    (getHandler (run [] [priorCreate, secondCreate, closeUpdate]) "p"
        (stringCriteria [("open", "true")])).2
      = .issues [⟨.str "T", .str "X", .str "U", .str "", .str "", ⟨2, "d2"⟩, ⟨2, "d2"⟩,
          .bool true, "000000000000000000000000"⟩] := by
  refine ⟨by decide, by decide, by decide, by decide⟩

/-- C13, amended: if Create on project `P`, whose stored records all have an
`open` with a string form, answers a record whose identifier no record already
stored in `P` carries, then the Update of that identifier with `open` set to
the string `false` answers "successfully updated", and afterwards the List
with `open=false` includes the created record, unchanged but for `open`, now
the boolean `false`, and `updated_on`, while the List with `open=true`
includes no record with that identifier. -/
theorem create_update_list (t : Table) (project : String) (body : Body) (now now2 : JSDate)
    (draws : Fin 24 → Fin 16) (r : Issue)
    (hr : (postHandler t project body now draws).2 = .issue r)
    (hfresh : ¬ HasId (issuesOf t project) (.str r._id))
    (hopen : ∀ x ∈ issuesOf t project, hasStringForm x.open_ = true) :
    (putHandler (postHandler t project body now draws).1 project
        { _id := .str r._id, open_ := .str "false" } now2).2
      = .resultWithId "successfully updated" (.str r._id) ∧
    ∃ lf lt,
      (getHandler (putHandler (postHandler t project body now draws).1 project
          { _id := .str r._id, open_ := .str "false" } now2).1 project
          (stringCriteria [("open", "false")])).2 = .issues lf ∧
      { r with open_ := .bool false, updated_on := now2 } ∈ lf ∧
      (getHandler (putHandler (postHandler t project body now draws).1 project
          { _id := .str r._id, open_ := .str "false" } now2).1 project
          (stringCriteria [("open", "true")])).2 = .issues lt ∧
      ∀ x ∈ lt, x._id ≠ r._id := by
  obtain ⟨hid, _, _, _, heff⟩ := postHandler_issue t project body now draws r hr
  have e1 : issuesOf (postHandler t project body now draws).1 project
      = issuesOf t project ++ [r] := by
    rw [heff project, if_pos rfl]
  have ht : truthy (({ _id := .str r._id, open_ := .str "false" } : Body)._id) = true := by
    simp [truthy, hid, generateId_ne_empty]
  have hc : updateFieldsCount
      (buildUpdateFields ({ _id := .str r._id, open_ := .str "false" } : Body)) ≠ 0 := by
    rw [Ne, updateFieldsCount_eq_zero_iff]
    intro h
    simp [NoFieldSupplied] at h
  have hf : findIndex (issuesOf (postHandler t project body now draws).1 project)
      (({ _id := .str r._id, open_ := .str "false" } : Body)._id)
      = some (issuesOf t project).length := by
    rw [e1]
    exact findIndex_append_fresh _ _ _ hfresh rfl
  have hput := putHandler_found (postHandler t project body now draws).1 project
    { _id := .str r._id, open_ := .str "false" } now2 _ ht hc hf
  have hm : mergeIssue r
      (buildUpdateFields ({ _id := .str r._id, open_ := .str "false" } : Body)) now2
      = { r with open_ := .bool false, updated_on := now2 } := by
    simp [mergeIssue, buildUpdateFields, normalizeBoolean]
  have e2 : issuesOf (putHandler (postHandler t project body now draws).1 project
      { _id := .str r._id, open_ := .str "false" } now2).1 project
      = issuesOf t project ++ [{ r with open_ := .bool false, updated_on := now2 }] := by
    rw [hput]
    simp only [issuesOf_mapSet, if_true]
    rw [e1, modify_append_length, hm]
  have hopen2 : ∀ x ∈ issuesOf (putHandler (postHandler t project body now draws).1 project
      { _id := .str r._id, open_ := .str "false" } now2).1 project,
      hasStringForm x.open_ = true := by
    intro x hx
    rw [e2, List.mem_append, List.mem_singleton] at hx
    rcases hx with hx | hx
    · exact hopen x hx
    · subst hx
      rfl
  refine ⟨by rw [hput], _, _, getHandler_open_filter _ _ _ hopen2, ?_,
    getHandler_open_filter _ _ _ hopen2, ?_⟩
  · rw [e2]
    simp [List.mem_filter, toStr]
  · rw [e2]
    intro x hx
    rw [List.mem_filter, List.mem_append] at hx
    rcases hx with ⟨hx | hx, hs⟩
    · intro e
      exact hfresh ⟨x, hx, by rw [e]⟩
    · rw [List.mem_singleton] at hx
      subst hx
      simp [toStr] at hs

/-- Witness for the amended C13: the end-to-end scenario of the spec, in an
empty store. -/
theorem create_update_list_witness :
    (putHandler (postHandler [] "p1" sampleCreateBody ⟨1, "d1"⟩ (fun _ => 5)).1 "p1"
        { _id := .str "555555555555555555555555", open_ := .str "false" } ⟨2, "d2"⟩).2
      = .resultWithId "successfully updated" (.str "555555555555555555555555") :=
  (create_update_list [] "p1" sampleCreateBody ⟨1, "d1"⟩ ⟨2, "d2"⟩ (fun _ => 5)
    ⟨.str "T", .str "X", .str "U", .str "", .str "", ⟨1, "d1"⟩, ⟨1, "d1"⟩, .bool true,
      "555555555555555555555555"⟩ (by decide) (by decide) (by decide)).1

/-! ## Invariants of the store -/

/-- C14, as stated, fails: Create refuses empty required fields, but Update
writes every supplied value, so after a Create an Update that sends the empty
string as `issue_title` leaves a stored record whose `issue_title` is empty,
in a store reached from the empty one. -/
theorem update_blanks_required_field :
    issuesOf (run [] blankTitleOps) "p"
      = [⟨.str "", .str "X", .str "U", .str "", .str "", ⟨1, "d1"⟩, ⟨2, "d2"⟩, .bool true,
          "000000000000000000000000"⟩] ∧
    ¬ (∀ t : Table, Reachable t → ∀ project, ∀ r ∈ issuesOf t project,
        ¬ AbsentOrFalsy r.issue_title ∧ ¬ AbsentOrFalsy r.issue_text ∧
        ¬ AbsentOrFalsy r.created_by) := by
  have h1 : issuesOf (run [] blankTitleOps) "p"
      = [⟨.str "", .str "X", .str "U", .str "", .str "", ⟨1, "d1"⟩, ⟨2, "d2"⟩, .bool true,
          "000000000000000000000000"⟩] := by decide
  refine ⟨h1, ?_⟩
  intro hall
  have h := hall (run [] blankTitleOps) ⟨blankTitleOps, rfl⟩ "p" _
    (by rw [h1]; exact List.mem_singleton.2 rfl)
  exact h.1 (by decide)

theorem postHandler_issue_required (t : Table) (p : String) (body : Body) (now : JSDate)
    (draws : Fin 24 → Fin 16) (r : Issue)
    (h : (postHandler t p body now draws).2 = .issue r) :
    truthy r.issue_title = true ∧ truthy r.issue_text = true ∧
      truthy r.created_by = true := by
  by_cases hc : (!truthy body.issue_title || !truthy body.issue_text ||
      !truthy body.created_by) = true
  · rw [postHandler_refused t p body now draws hc] at h
    simp at h
  · have hb : (!truthy body.issue_title || !truthy body.issue_text ||
        !truthy body.created_by) = false := by simpa using hc
    unfold postHandler at h
    simp only [hb, Bool.false_eq_true, if_false, Response.issue.injEq] at h
    subst h
    simp only [Bool.or_eq_true, Bool.not_eq_true', not_or, Bool.not_eq_false] at hc
    exact ⟨hc.1.1, hc.1.2, hc.2⟩

/-- Where a record found after one request comes from: it was stored before,
or it is the record a Create answered, or it is the merge that an Update made
of a record stored before. -/
theorem step_record_source (t : Table) (op : Op) (q : String) (r : Issue)
    (hr : r ∈ issuesOf (step t op).1 q) :
    r ∈ issuesOf t q ∨
    (∃ project body now draws, op = .create project body now draws ∧
      (postHandler t project body now draws).2 = .issue r) ∨
    (∃ project body now old, op = .update project body now ∧ old ∈ issuesOf t q ∧
      r = mergeIssue old (buildUpdateFields body) now) := by
  cases op with
  | list project query =>
    left
    simpa only [step, issuesOf_getHandler] using hr
  | create project body now draws =>
    simp only [step] at hr
    rcases issuesOf_postHandler t project body now draws with hu | ⟨r', hr', _, _, _, _, heff⟩
    · left
      rwa [hu q] at hr
    · rw [heff q] at hr
      by_cases hq : q = project
      · subst hq
        simp only [if_true, List.mem_append, List.mem_singleton] at hr
        rcases hr with hr | hr
        · exact Or.inl hr
        · subst hr
          exact Or.inr (Or.inl ⟨_, _, _, _, rfl, hr'⟩)
      · simp only [hq, if_false] at hr
        exact Or.inl hr
  | update project body now =>
    simp only [step] at hr
    rcases issuesOf_putHandler t project body now with hu | ⟨pre, old, post, e, _, heff⟩
    · left
      rwa [hu q] at hr
    · rw [heff q] at hr
      by_cases hq : q = project
      · subst hq
        simp only [if_true, List.mem_append, List.mem_cons] at hr
        rcases hr with hr | hr | hr
        · left
          rw [e]
          exact List.mem_append_left _ hr
        · refine Or.inr (Or.inr ⟨_, _, _, old, rfl, ?_, hr⟩)
          rw [e]
          exact List.mem_append_right _ (List.mem_cons_self _ _)
        · left
          rw [e]
          exact List.mem_append_right _ (List.mem_cons_of_mem _ hr)
      · simp only [hq, if_false] at hr
        exact Or.inl hr
  | delete project body =>
    simp only [step] at hr
    rcases issuesOf_deleteHandler t project body with hu | ⟨pre, old, post, e, heff⟩
    · left
      rwa [hu q] at hr
    · rw [heff q] at hr
      by_cases hq : q = project
      · subst hq
        simp only [if_true, List.mem_append] at hr
        left
        rw [e]
        rcases hr with hr | hr
        · exact List.mem_append_left _ hr
        · exact List.mem_append_right _ (List.mem_cons_of_mem _ hr)
      · simp only [hq, if_false] at hr
        exact Or.inl hr

theorem required_kept_step (t : Table) (op : Op) (hop : opKeepsRequired op = true)
    (hinv : ∀ q, ∀ r ∈ issuesOf t q,
      truthy r.issue_title = true ∧ truthy r.issue_text = true ∧ truthy r.created_by = true) :
    ∀ q, ∀ r ∈ issuesOf (step t op).1 q,
      truthy r.issue_title = true ∧ truthy r.issue_text = true ∧
        truthy r.created_by = true := by
  intro q r hr
  rcases step_record_source t op q r hr with h | ⟨_, _, _, _, _, hpost⟩ |
    ⟨_, body, now, old, hopeq, hold, hm⟩
  · exact hinv q r h
  · exact postHandler_issue_required _ _ _ _ _ _ hpost
  · subst hopeq
    obtain ⟨h1, h2, h3⟩ := hinv q old hold
    simp only [opKeepsRequired, Bool.and_eq_true, Bool.or_eq_true, decide_eq_true_eq] at hop
    obtain ⟨⟨k1, k2⟩, k3⟩ := hop
    subst hm
    refine ⟨?_, ?_, ?_⟩
    · rcases k1 with k | k
      · simp [mergeIssue, buildUpdateFields, k, h1]
      · by_cases hu : body.issue_title = .undefined
        · simp [mergeIssue, buildUpdateFields, hu, h1]
        · simp [mergeIssue, buildUpdateFields, hu, k]
    · rcases k2 with k | k
      · simp [mergeIssue, buildUpdateFields, k, h2]
      · by_cases hu : body.issue_text = .undefined
        · simp [mergeIssue, buildUpdateFields, hu, h2]
        · simp [mergeIssue, buildUpdateFields, hu, k]
    · rcases k3 with k | k
      · simp [mergeIssue, buildUpdateFields, k, h3]
      · by_cases hu : body.created_by = .undefined
        · simp [mergeIssue, buildUpdateFields, hu, h3]
        · simp [mergeIssue, buildUpdateFields, hu, k]

theorem required_kept_run (ops : List Op) (t : Table)
    (hops : ops.all opKeepsRequired = true)
    (hinv : ∀ q, ∀ r ∈ issuesOf t q,
      truthy r.issue_title = true ∧ truthy r.issue_text = true ∧ truthy r.created_by = true) :
    ∀ q, ∀ r ∈ issuesOf (run t ops) q,
      truthy r.issue_title = true ∧ truthy r.issue_text = true ∧
        truthy r.created_by = true := by
  induction ops generalizing t with
  | nil => exact hinv
  | cons op rest ih =>
    simp only [List.all_cons, Bool.and_eq_true] at hops
    simp only [run, List.foldl_cons]
    exact ih _ hops.2 (required_kept_step t op hops.1 hinv)

/-- C14, amended: in every store reached from the empty one by a sequence of
Create, Update, Delete and List requests in which no Update supplies an empty
or otherwise falsy `issue_title`, `issue_text` or `created_by`, every stored
record has a non-empty `issue_title`, `issue_text` and `created_by`. -/
theorem required_fields_kept (ops : List Op) (hops : ops.all opKeepsRequired = true) :
    ∀ q, ∀ r ∈ issuesOf (run [] ops) q,
      ¬ AbsentOrFalsy r.issue_title ∧ ¬ AbsentOrFalsy r.issue_text ∧
        ¬ AbsentOrFalsy r.created_by := by
  intro q r hr
  have h := required_kept_run ops [] hops (by
    intro q r hr
    simp [issuesOf, mapGet] at hr) q r hr
  simp only [← truthy_eq_false_iff, Bool.not_eq_false]
  exact h

/-- Witness for the amended C14: after a Create, an Update that renames the
issue and closes it, and a second Create, the renamed record is stored and
its three required fields are not empty. -/
theorem required_fields_kept_witness :
    renamedIssue ∈ issuesOf (run [] renameOps) "p" ∧
      ¬ AbsentOrFalsy renamedIssue.issue_title ∧ ¬ AbsentOrFalsy renamedIssue.issue_text ∧
        ¬ AbsentOrFalsy renamedIssue.created_by :=
  ⟨by decide, required_fields_kept renameOps (by decide) "p" renamedIssue (by decide)⟩

/-- C15, as stated, fails: two Create requests that draw the same 24 digits
leave, in a store reached from the empty one, two records of one project with
the same `_id`. -/
theorem ids_distinct_counterexample :
    (issuesOf (run [] collidingCreates) "p").map (fun r => r._id)
      = ["000000000000000000000000", "000000000000000000000000"] ∧
    ¬ (∀ t : Table, Reachable t → IdsDistinct t) := by
  have h1 : (issuesOf (run [] collidingCreates) "p").map (fun r => r._id)
      = ["000000000000000000000000", "000000000000000000000000"] := by decide
  refine ⟨h1, ?_⟩
  intro hall
  have h := hall (run [] collidingCreates) ⟨collidingCreates, rfl⟩ "p"
  rw [h1] at h
  simp at h

theorem idsDistinct_step (t : Table) (op : Op) (hinv : IdsDistinct t)
    (hfresh : opFresh t op = true) : IdsDistinct (step t op).1 := by
  intro q
  cases op with
  | list project query =>
    simp only [step, issuesOf_getHandler]
    exact hinv q
  | create project body now draws =>
    simp only [step]
    rcases issuesOf_postHandler t project body now draws with hu | ⟨r, hr, hid, _, _, _, heff⟩
    · rw [hu q]
      exact hinv q
    · rw [heff q]
      by_cases hq : q = project
      · subst hq
        simp only [if_true, List.map_append, List.map_cons, List.map_nil]
        simp only [opFresh, decide_eq_true_eq] at hfresh
        rcases hfresh with hf | hf
        · rw [hr] at hf
          simp at hf
        · rw [List.nodup_append]
          refine ⟨hinv q, List.nodup_singleton _, ?_⟩
          intro a ha hb
          rw [List.mem_singleton] at hb
          rw [List.mem_map] at ha
          obtain ⟨x, hx, hxa⟩ := ha
          exact hf ⟨x, hx, by rw [hxa, hb, hid]⟩
      · simp only [hq, if_false]
        exact hinv q
  | update project body now =>
    simp only [step]
    rcases issuesOf_putHandler t project body now with hu | ⟨pre, old, post, e, _, heff⟩
    · rw [hu q]
      exact hinv q
    · rw [heff q]
      by_cases hq : q = project
      · subst hq
        have h := hinv q
        rw [e] at h
        simpa [mergeIssue] using h
      · simp only [hq, if_false]
        exact hinv q
  | delete project body =>
    simp only [step]
    rcases issuesOf_deleteHandler t project body with hu | ⟨pre, old, post, e, heff⟩
    · rw [hu q]
      exact hinv q
    · rw [heff q]
      by_cases hq : q = project
      · subst hq
        have h := hinv q
        rw [e] at h
        simp only [if_true]
        refine List.Nodup.sublist ?_ h
        exact List.Sublist.map _
          (List.Sublist.append (List.Sublist.refl pre) (List.sublist_cons_self old post))
      · simp only [hq, if_false]
        exact hinv q

theorem idsDistinct_run (ops : List Op) (t : Table) (hinv : IdsDistinct t)
    (hfresh : freshCreates t ops = true) : IdsDistinct (run t ops) := by
  induction ops generalizing t with
  | nil => exact hinv
  | cons op rest ih =>
    simp only [freshCreates, Bool.and_eq_true] at hfresh
    simp only [run, List.foldl_cons]
    exact ih _ (idsDistinct_step t op hinv hfresh.1) hfresh.2

/-- C15, amended: in every store reached from the empty one by a sequence of
Create, Update, Delete and List requests in which each accepted Create draws
an identifier that no record then stored in its project carries, no two
records of the same project have the same `_id`. -/
theorem ids_distinct_when_fresh (ops : List Op) (hfresh : freshCreates [] ops = true) :
    IdsDistinct (run [] ops) := by
  apply idsDistinct_run ops [] _ hfresh
  intro q
  simp [issuesOf, mapGet]

/-- Witness for the amended C15: two Creates with different draws, an Update
and a Delete. -/
theorem ids_distinct_when_fresh_witness :
    IdsDistinct (run []
      [.create "p" sampleCreateBody ⟨1, "d1"⟩ (fun _ => 0),
       .create "p" sampleCreateBody ⟨2, "d2"⟩ (fun _ => 1),
       .update "p" { _id := .str "000000000000000000000000", open_ := .str "false" }
         ⟨3, "d3"⟩,
       .delete "p" { _id := .str "111111111111111111111111" }]) :=
  ids_distinct_when_fresh
    [.create "p" sampleCreateBody ⟨1, "d1"⟩ (fun _ => 0),
     .create "p" sampleCreateBody ⟨2, "d2"⟩ (fun _ => 1),
     .update "p" { _id := .str "000000000000000000000000", open_ := .str "false" }
       ⟨3, "d3"⟩,
     .delete "p" { _id := .str "111111111111111111111111" }] (by decide)

/-- Where a record found after one request comes from: it was stored before,
or a Create at the clock reading of the request made it, or an Update at that
reading rewrote a record stored before and kept its `created_on`. -/
theorem step_record_origin (t : Table) (op : Op) (q : String) (r : Issue)
    (hr : r ∈ issuesOf (step t op).1 q) :
    r ∈ issuesOf t q ∨
    (∃ project body now draws, op = .create project body now draws ∧
      r.created_on = now ∧ r.updated_on = now) ∨
    (∃ project body now old, op = .update project body now ∧ old ∈ issuesOf t q ∧
      r.created_on = old.created_on ∧ r.updated_on = now) := by
  cases op with
  | list project query =>
    left
    simpa only [step, issuesOf_getHandler] using hr
  | create project body now draws =>
    simp only [step] at hr
    rcases issuesOf_postHandler t project body now draws with hu | ⟨r', _, _, hc, hup, _, heff⟩
    · left
      rwa [hu q] at hr
    · rw [heff q] at hr
      by_cases hq : q = project
      · subst hq
        simp only [if_true, List.mem_append, List.mem_singleton] at hr
        rcases hr with hr | hr
        · exact Or.inl hr
        · subst hr
          exact Or.inr (Or.inl ⟨_, _, _, _, rfl, hc, hup⟩)
      · simp only [hq, if_false] at hr
        exact Or.inl hr
  | update project body now =>
    simp only [step] at hr
    rcases issuesOf_putHandler t project body now with hu | ⟨pre, old, post, e, _, heff⟩
    · left
      rwa [hu q] at hr
    · rw [heff q] at hr
      by_cases hq : q = project
      · subst hq
        simp only [if_true, List.mem_append, List.mem_cons] at hr
        rcases hr with hr | hr | hr
        · left
          rw [e]
          exact List.mem_append_left _ hr
        · subst hr
          refine Or.inr (Or.inr ⟨_, _, _, old, rfl, ?_, rfl, rfl⟩)
          rw [e]
          exact List.mem_append_right _ (List.mem_cons_self _ _)
        · left
          rw [e]
          exact List.mem_append_right _ (List.mem_cons_of_mem _ hr)
      · simp only [hq, if_false] at hr
        exact Or.inl hr
  | delete project body =>
    simp only [step] at hr
    rcases issuesOf_deleteHandler t project body with hu | ⟨pre, old, post, e, heff⟩
    · left
      rwa [hu q] at hr
    · rw [heff q] at hr
      by_cases hq : q = project
      · subst hq
        simp only [if_true, List.mem_append] at hr
        left
        rw [e]
        rcases hr with hr | hr
        · exact List.mem_append_left _ hr
        · exact List.mem_append_right _ (List.mem_cons_of_mem _ hr)
      · simp only [hq, if_false] at hr
        exact Or.inl hr

theorem run_times_ordered (ops : List Op) (t : Table)
    (hinv : ∀ q, ∀ r ∈ issuesOf t q, r.created_on.time ≤ r.updated_on.time)
    (hbound : ∀ q, ∀ r ∈ issuesOf t q, ∀ n ∈ clockReadings ops, r.created_on.time ≤ n)
    (hmono : (clockReadings ops).Pairwise (· ≤ ·)) :
    ∀ q, ∀ r ∈ issuesOf (run t ops) q, r.created_on.time ≤ r.updated_on.time := by
  induction ops generalizing t with
  | nil => exact hinv
  | cons op rest ih =>
    simp only [run, List.foldl_cons]
    have hsub : ∀ n ∈ clockReadings rest, n ∈ clockReadings (op :: rest) := by
      intro n hn
      cases op <;> simp [clockReadings, hn]
    have hmono' : (clockReadings rest).Pairwise (· ≤ ·) := by
      cases op <;> simp only [clockReadings, List.pairwise_cons] at hmono
      · exact hmono
      · exact hmono.2
      · exact hmono.2
      · exact hmono
    apply ih
    · intro q r hr
      rcases step_record_origin t op q r hr with h | ⟨_, _, now, _, _, hc, hu⟩ |
        ⟨_, _, now, old, hop, hold, hc, hu⟩
      · exact hinv q r h
      · rw [hc, hu]
      · rw [hc, hu]
        apply hbound q old hold
        subst hop
        simp [clockReadings]
    · intro q r hr n hn
      rcases step_record_origin t op q r hr with h | ⟨_, _, now, _, hop, hc, _⟩ |
        ⟨_, _, now, old, _, hold, hc, _⟩
      · exact hbound q r h n (hsub n hn)
      · subst hop
        rw [hc]
        simp only [clockReadings, List.pairwise_cons] at hmono
        exact hmono.1 n hn
      · rw [hc]
        exact hbound q old hold n (hsub n hn)
    · exact hmono'

/-- C16: when the clock readings of successive requests are non-decreasing,
every record of every store reached from the empty one has `updated_on` at or
after `created_on`.  And one request, in any store, leaves each project's
sequence with the same `_id` and `created_on` at every position (List,
Update, refused requests), or adds one record at the end (Create), or removes
one position (Delete): no record that stays stored has its `created_on`
changed. -/
theorem timestamps_ordered :
    (∀ ops : List Op, (clockReadings ops).Pairwise (· ≤ ·) →
      ∀ q, ∀ r ∈ issuesOf (run [] ops) q, r.created_on.time ≤ r.updated_on.time) ∧
    (∀ (t : Table) (op : Op) (q : String),
      (issuesOf (step t op).1 q).map (fun r => (r._id, r.created_on))
          = (issuesOf t q).map (fun r => (r._id, r.created_on)) ∨
      (∃ r, issuesOf (step t op).1 q = issuesOf t q ++ [r]) ∨
      (∃ i, issuesOf (step t op).1 q = (issuesOf t q).eraseIdx i)) := by
  constructor
  · intro ops hmono
    apply run_times_ordered ops [] _ _ hmono
    · intro q r hr
      simp [issuesOf, mapGet] at hr
    · intro q r hr
      simp [issuesOf, mapGet] at hr
  · intro t op q
    cases op with
    | list project query =>
      left
      simp only [step, issuesOf_getHandler]
    | create project body now draws =>
      simp only [step]
      rcases issuesOf_postHandler t project body now draws with hu | ⟨r, _, _, _, _, _, heff⟩
      · left
        rw [hu q]
      · by_cases hq : q = project
        · subst hq
          right; left
          exact ⟨r, by rw [heff q, if_pos rfl]⟩
        · left
          rw [heff q, if_neg hq]
    | update project body now =>
      simp only [step]
      rcases issuesOf_putHandler t project body now with hu | ⟨pre, old, post, e, _, heff⟩
      · left
        rw [hu q]
      · left
        by_cases hq : q = project
        · subst hq
          rw [heff q, if_pos rfl, e]
          simp [mergeIssue]
        · rw [heff q, if_neg hq]
    | delete project body =>
      simp only [step]
      rcases issuesOf_deleteHandler t project body with hu | ⟨pre, old, post, e, heff⟩
      · left
        rw [hu q]
      · by_cases hq : q = project
        · subst hq
          right; right
          exact ⟨pre.length, by rw [heff q, if_pos rfl, e, eraseIdx_append_length]⟩
        · left
          rw [heff q, if_neg hq]

/-- Witness for C16: a Create at time 1, an Update of the created record at
time 3 and a later Create at time 3. -/
theorem timestamps_ordered_witness :
    ∀ q, ∀ r ∈ issuesOf (run []
        [.create "p" sampleCreateBody ⟨1, "d1"⟩ (fun _ => 0),
         .update "p" { _id := .str "000000000000000000000000", status_text := .str "done" }
           ⟨3, "d3"⟩,
         .create "q" sampleCreateBody ⟨3, "d3"⟩ (fun _ => 1)]) q,
      r.created_on.time ≤ r.updated_on.time :=
  timestamps_ordered.1
    [.create "p" sampleCreateBody ⟨1, "d1"⟩ (fun _ => 0),
     .update "p" { _id := .str "000000000000000000000000", status_text := .str "done" }
       ⟨3, "d3"⟩,
     .create "q" sampleCreateBody ⟨3, "d3"⟩ (fun _ => 1)] (by decide)

/-! ## Isolation, round trip, and the coercion of `open` -/

/-- C18: project isolation.  A request addressed to project `P`, whatever its
kind, its body and its outcome, leaves the issue sequence of every other
project `Q` as it was. -/
theorem project_isolation (t : Table) (op : Op) (q : String) (hq : q ≠ opProject op) :
    issuesOf (step t op).1 q = issuesOf t q := by
  cases op with
  | list project query =>
    simp only [step, issuesOf_getHandler]
  | create project body now draws =>
    simp only [opProject] at hq
    simp only [step]
    rcases issuesOf_postHandler t project body now draws with hu | ⟨r, _, _, _, _, _, heff⟩
    · exact hu q
    · rw [heff q, if_neg hq]
  | update project body now =>
    simp only [opProject] at hq
    simp only [step]
    rcases issuesOf_putHandler t project body now with hu | ⟨pre, old, post, _, _, heff⟩
    · exact hu q
    · rw [heff q, if_neg hq]
  | delete project body =>
    simp only [opProject] at hq
    simp only [step]
    rcases issuesOf_deleteHandler t project body with hu | ⟨pre, old, post, _, heff⟩
    · exact hu q
    · rw [heff q, if_neg hq]

/-- Witness for C18: a successful Delete in project `apitest` seen from
project `other`, and a successful Create in `other` seen from `apitest`. -/
theorem project_isolation_witness :
    issuesOf (step sampleTable
        (.delete "apitest" { _id := .str "111111111111111111111111" })).1 "other"
      = issuesOf sampleTable "other" ∧
    issuesOf (step sampleTable
        (.create "other" sampleCreateBody ⟨5, "d5"⟩ (fun _ => 3))).1 "apitest"
      = issuesOf sampleTable "apitest" :=
  ⟨project_isolation sampleTable
      (.delete "apitest" { _id := .str "111111111111111111111111" }) "other" (by decide),
    project_isolation sampleTable
      (.create "other" sampleCreateBody ⟨5, "d5"⟩ (fun _ => 3)) "apitest" (by decide)⟩

/-- C19: Create and Delete round trip.  If a Create on project `P` answers a
record whose identifier no record already in `P` carries, then the Delete of
that identifier that follows answers "successfully deleted" and leaves the
sequence of `P`, and of every other project, exactly as it was before the
Create. -/
theorem create_delete_roundtrip (t : Table) (project : String) (body : Body) (now : JSDate)
    (draws : Fin 24 → Fin 16) (r : Issue)
    (hr : (postHandler t project body now draws).2 = .issue r)
    (hfresh : ¬ HasId (issuesOf t project) (.str r._id)) :
    (deleteHandler (postHandler t project body now draws).1 project
        { _id := .str r._id }).2
      = .resultWithId "successfully deleted" (.str r._id) ∧
    issuesOf (deleteHandler (postHandler t project body now draws).1 project
        { _id := .str r._id }).1 project = issuesOf t project ∧
    ∀ q, issuesOf (deleteHandler (postHandler t project body now draws).1 project
        { _id := .str r._id }).1 q = issuesOf t q := by
  obtain ⟨hid, _, _, _, heff⟩ := postHandler_issue t project body now draws r hr
  have e1 : issuesOf (postHandler t project body now draws).1 project
      = issuesOf t project ++ [r] := by
    rw [heff project, if_pos rfl]
  have ht : truthy (({ _id := .str r._id } : Body)._id) = true := by
    simp [truthy, hid, generateId_ne_empty]
  have hf : findIndex (issuesOf (postHandler t project body now draws).1 project)
      (({ _id := .str r._id } : Body)._id) = some (issuesOf t project).length := by
    rw [e1]
    exact findIndex_append_fresh _ _ _ hfresh rfl
  have hdel := deleteHandler_found (postHandler t project body now draws).1 project
    { _id := .str r._id } _ ht hf
  have hall : ∀ q, issuesOf (deleteHandler (postHandler t project body now draws).1 project
      { _id := .str r._id }).1 q = issuesOf t q := by
    intro q
    rw [hdel, issuesOf_set_after_get]
    by_cases hq : q = project
    · subst hq
      rw [if_pos rfl, e1]
      have := eraseIdx_append_length (issuesOf t q) r []
      simpa using this
    · rw [if_neg hq, heff q, if_neg hq]
  exact ⟨by rw [hdel], hall project, hall⟩

/-- Witness for C19: a third issue is created in the sample project and then
deleted. -/
theorem create_delete_roundtrip_witness :
    (deleteHandler (postHandler sampleTable "apitest" sampleCreateBody ⟨5, "d5"⟩
        (fun _ => 3)).1 "apitest" { _id := .str "333333333333333333333333" }).2
      = .resultWithId "successfully deleted" (.str "333333333333333333333333") ∧
    issuesOf (deleteHandler (postHandler sampleTable "apitest" sampleCreateBody ⟨5, "d5"⟩
        (fun _ => 3)).1 "apitest" { _id := .str "333333333333333333333333" }).1 "apitest"
      = issuesOf sampleTable "apitest" :=
  have h := create_delete_roundtrip sampleTable "apitest" sampleCreateBody ⟨5, "d5"⟩
    (fun _ => 3)
    ⟨.str "T", .str "X", .str "U", .str "", .str "", ⟨5, "d5"⟩, ⟨5, "d5"⟩, .bool true,
      "333333333333333333333333"⟩ (by decide) (by decide)
  ⟨h.1, h.2.1⟩

theorem toStr_normalizeBoolean (v : JSVal) : toStr (normalizeBoolean v) = toStr v := by
  cases v with
  | str s => exact toStr_normalizeBoolean_str s
  | bool b => rfl
  | undefined => rfl
  | null => rfl
  | num n => rfl
  | date d => rfl
  | object o => rfl

theorem coerced_query_general (query : JSObject) :
    objKeys (if hasOwnProperty query "open" then
        objSet query "open" (normalizeBoolean (objGet query "open"))
      else query) = objKeys query ∧
    ∀ k, toStr (objGet (if hasOwnProperty query "open" then
        objSet query "open" (normalizeBoolean (objGet query "open"))
      else query) k) = toStr (objGet query k) := by
  by_cases h : hasOwnProperty query "open" = true
  · simp only [h, if_true]
    refine ⟨keys_setEntry _ _ _ h, ?_⟩
    intro k
    unfold objSet
    by_cases hk : k = "open"
    · subst hk
      have : objGet (setEntry query "open" (normalizeBoolean (objGet query "open"))) "open"
          = normalizeBoolean (objGet query "open") := by
        simp [objGet, lookup_setEntry]
      rw [this, toStr_normalizeBoolean]
    · have : objGet (setEntry query "open" (normalizeBoolean (objGet query "open"))) k
          = objGet query k := by
        simp [objGet, lookup_setEntry, hk]
      rw [this]
  · simp [h]

theorem keyMatches_congr (issue : Issue) (q1 q2 : JSObject) (k : String)
    (hv : toStr (objGet q1 k) = toStr (objGet q2 k)) :
    keyMatches issue q1 k = keyMatches issue q2 k := by
  unfold keyMatches
  rw [hv]

theorem everyKey_congr (issue : Issue) (q1 q2 : JSObject) (keys : List String)
    (hv : ∀ k, toStr (objGet q1 k) = toStr (objGet q2 k)) :
    everyKey issue q1 keys = everyKey issue q2 keys := by
  induction keys with
  | nil => rfl
  | cons k rest ih =>
    unfold everyKey
    rw [keyMatches_congr issue q1 q2 k (hv k), ih]

theorem filterIssues_congr (q1 q2 : JSObject) (issues : List Issue)
    (hk : objKeys q1 = objKeys q2)
    (hv : ∀ k, toStr (objGet q1 k) = toStr (objGet q2 k)) :
    filterIssues q1 issues = filterIssues q2 issues := by
  induction issues with
  | nil => rfl
  | cons r rest ih =>
    unfold filterIssues
    rw [hk, everyKey_congr r q1 q2 _ hv, ih]

theorem getHandler_eq_filterByCriteria (t : Table) (project : String) (query : JSObject) :
    (getHandler t project query).2
      = answerOf (filterByCriteria (issuesOf t project) query) := by
  obtain ⟨hk, hv⟩ := coerced_query_general query
  rw [getHandler_snd]
  unfold filterByCriteria
  rw [filterIssues_congr _ query (issuesOf t project) hk hv]

/-- C20: the coercion of the `open` criterion does not affect filtering.  For
string-valued criteria, and in fact for criteria with values of any kind, the
outcome of the List handler, which first maps an `open` criterion through
`normalizeBoolean`, is the outcome of the same filter applied to the raw
criteria: the same array, or a throw in the same cases. -/
theorem open_coercion_is_neutral (t : Table) (project : String) :
    (∀ c : List (String × String),
      (getHandler t project (stringCriteria c)).2
        = answerOf (filterByCriteria (issuesOf t project) (stringCriteria c))) ∧
    (∀ query : JSObject,
      (getHandler t project query).2
        = answerOf (filterByCriteria (issuesOf t project) query)) := by
  constructor
  · intro c
    exact getHandler_eq_filterByCriteria t project (stringCriteria c)
  · intro query
    obtain ⟨hk, hv⟩ := coerced_query_general query
    rw [getHandler_snd]
    unfold filterByCriteria
    rw [filterIssues_congr _ query (issuesOf t project) hk hv]

/-- Witness for C20: the query of the functional test "one filter" on the
sample project, coerced or not, answers the open issue alone. -/
theorem open_coercion_is_neutral_witness :
    (getHandler sampleTable "apitest" (stringCriteria [("open", "true")])).2
      = .issues [sampleIssue1] :=
  ((open_coercion_is_neutral sampleTable "apitest").1 [("open", "true")]).trans (by decide)

end IssueTracker
